import Mathlib

/-!
# Verification of the Sysy-alpha compiler front end

This file is a shallow embedding, in Lean 4, of the Sysy-alpha front end
(a lexer, a recursive-descent parser and a semantic analyzer for a small
C-like language, written in Rust), together with proofs about it.

Modelling conventions:
* The Rust `Vec<char>` character buffer is a `List Char`, indexed with `get?`.
* Rust `i32` arithmetic wraps (two's complement, release semantics); this is
  `wrap32`.  `i32` division and remainder truncate toward zero (`Int.tdiv`,
  `Int.tmod`); dividing by zero (or overflowing `MIN / -1`) panics, which the
  embedding models with `Option` (`none` = the Rust program panics or, for
  the lexer's line-comment loop, does not terminate).
* Loops are modelled either structurally over the remaining character list or
  with an explicit fuel argument; `none` on fuel exhaustion coincides with
  the panic/divergence case and every theorem about a terminating run
  exhibits a `some` result.
* Error diagnostics are printed in Rust and do not stop execution (the
  `panic!` calls in the error reporters are commented out in the source);
  the embedding counts the number of diagnostics reported instead of
  modelling the printed text.
* `Token` keeps the fields the proofs observe (`sort`, `line_no`,
  `startpos`, `endpos`); the shared `buf`/`source`/`line_start` references
  exist only for diagnostic printing and are omitted.
-/

namespace Sysy

/-- Two's-complement wraparound of an unbounded integer into `i32`. -/
def wrap32 (z : Int) : Int := (z + 2 ^ 31) % 2 ^ 32 - 2 ^ 31

/-- Conversion of an `i32` value to `usize` (64-bit, two's complement). -/
def usizeOfI32 (z : Int) : Nat := ((z % 2 ^ 64).toNat)

/-- Rust `char::to_digit(base)`: `0-9`, then `a-z`/`A-Z` from 10 on, provided
the resulting value is below `base`. -/
def charToDigit (ch : Char) (base : Nat) : Option Nat :=
  let v : Option Nat :=
    if '0' ≤ ch ∧ ch ≤ '9' then some (ch.toNat - '0'.toNat)
    else if 'a' ≤ ch ∧ ch ≤ 'z' then some (ch.toNat - 'a'.toNat + 10)
    else if 'A' ≤ ch ∧ ch ≤ 'Z' then some (ch.toNat - 'A'.toNat + 10)
    else none
  match v with
  | some d => if d < base then some d else none
  | none => none

/-- Rust `char::is_ascii_digit`. -/
def isAsciiDigitC (ch : Char) : Bool := '0' ≤ ch && ch ≤ '9'

/-- Rust `char::is_ascii_alphabetic`. -/
def isAsciiAlphaC (ch : Char) : Bool := ('a' ≤ ch && ch ≤ 'z') || ('A' ≤ ch && ch ≤ 'Z')

/-- The three-way test in `Lexer::scan_identifier`: alphabetic, digit or `_`. -/
def isIdentChar (ch : Char) : Bool := isAsciiAlphaC ch || isAsciiDigitC ch || ch = '_'

/-- `TokenType` from `lib.rs`.  The `f32` payload of `FloatNumber` is omitted:
the active lexer never constructs that variant (its float scanning is
commented out in `lexer.rs`). -/
inductive TokenType where
  | IntNumber (val : Int)
  | FloatNumber
  | Identifier (name : String)
  | WrongFormat (msg : String)
  | Void | Int | Float | Const | IntConst | FloatConst
  | If | Else | While | Continue | Break | Return
  | Plus | Minus | Multi | Divide | Mods | Assign
  | Equal | NotEqual | Lesserthan | Greaterthan | LessEqual | GreatEqual
  | And | Or | Not
  | Comma | Semicolon | LeftParen | RightParen
  | LeftBracket | RightBracket | LeftBrace | RightBrace
deriving DecidableEq, Repr

/-- A lexer token: kind, 1-based line number and half-open character span.
The Rust struct also shares the character buffer, the source path and the
line-start offset for diagnostics; those fields are not observed by any
theorem and are omitted. -/
structure Token where
  sort : TokenType
  line_no : Nat
  startpos : Nat
  endpos : Nat
deriving DecidableEq, Repr

/-- The keyword table built by `keyword_table_init`. -/
def keywordTable (s : String) : Option TokenType :=
  if s = "int" then some .Int
  else if s = "float" then some .Float
  else if s = "void" then some .Void
  else if s = "const" then some .Const
  else if s = "if" then some .If
  else if s = "else" then some .Else
  else if s = "while" then some .While
  else if s = "continue" then some .Continue
  else if s = "break" then some .Break
  else if s = "return" then some .Return
  else none

/-- The two-character operator table built by `double_sign_table_init`. -/
def doubleSignTable (s : String) : Option TokenType :=
  if s = "==" then some .Equal
  else if s = "!=" then some .NotEqual
  else if s = "&&" then some .And
  else if s = "||" then some .Or
  else if s = ">=" then some .GreatEqual
  else if s = "<=" then some .LessEqual
  else none

/-- `Lexer::single_sign`. -/
def single_sign (c : Char) : Option TokenType :=
  match c with
  | '+' => some .Plus
  | '-' => some .Minus
  | '*' => some .Multi
  | '/' => some .Divide
  | '%' => some .Mods
  | '=' => some .Assign
  | '<' => some .Lesserthan
  | '>' => some .Greaterthan
  | '!' => some .Not
  | ',' => some .Comma
  | ';' => some .Semicolon
  | '(' => some .LeftParen
  | ')' => some .RightParen
  | '[' => some .LeftBracket
  | ']' => some .RightBracket
  | '{' => some .LeftBrace
  | '}' => some .RightBrace
  | _ => none

/-- The digit loop of `Lexer::parse_number`, run on the characters from the
cursor on: accumulate `sum = sum * base + val` (wrapping `i32`) while the
character is a valid digit of `base`, counting the consumed length. -/
def parse_number_digits (base : Nat) : List Char → Int → Nat → Int × Nat
  | [], sum, len => (sum, len)
  | ch :: rest, sum, len =>
    match charToDigit ch base with
    | some val => parse_number_digits base rest (wrap32 (sum * (base : Int) + (val : Int))) (len + 1)
    | none => (sum, len)

/-- Mathematical value of a digit string in base `base`, folded from an
accumulator (Horner's rule) — the specification-side decoding of a numeric
literal, without any wraparound. -/
def hornerFrom (base : Nat) (acc : Int) (vs : List Nat) : Int :=
  vs.foldl (fun a (v : Nat) => a * (base : Int) + (v : Int)) acc

/-- Mathematical value of a digit string in base `base`. -/
def hornerInt (base : Nat) (vs : List Nat) : Int := hornerFrom base 0 vs

/-- Test for the malformed-literal token kind. -/
def TokenType.isWrongFormatB : TokenType → Bool
  | .WrongFormat _ => true
  | _ => false

/-- The loop of `Lexer::line_comment`, run on the characters from cursor `c`
on: advance until the character is a linefeed and return the cursor there.
If no linefeed follows, the Rust loop keeps testing `chars.get(current)`,
which is `None` forever, and never terminates: that is the `none` case. -/
def line_comment_from : List Char → Nat → Option Nat
  | [], _ => none
  | ch :: rest, c => if ch = '\n' then some c else line_comment_from rest (c + 1)

/-- `Lexer::line_comment`, started at absolute cursor `c`. -/
def line_comment (cs : List Char) (c : Nat) : Option Nat :=
  line_comment_from (cs.drop c) c

/-- The loop of `Lexer::block_comment`, on the characters from cursor `c` on.
On `*` followed by `/` it returns the cursor just past the terminator; a
linefeed bumps the line number and records the next line start; reaching
end-of-input reports "block comment not end" via `error`, which advances the
cursor once more and raises the panic flag (the `false` in the result). -/
def block_comment_from : List Char → Nat → Nat → List Nat → Nat × Nat × List Nat × Bool
  | [], c, line_no, line_starts => (c + 1, line_no, line_starts, false)
  | ch :: rest, c, line_no, line_starts =>
    if ch = '*' ∧ rest.head? = some '/' then (c + 2, line_no, line_starts, true)
    else if ch = '\n' then block_comment_from rest (c + 1) (line_no + 1) (line_starts ++ [c + 1])
    else block_comment_from rest (c + 1) line_no line_starts

/-- `Lexer::block_comment` after the opening `/*` has been skipped (the Rust
function begins with `current += 2`; callers pass the cursor of the `/`). -/
def block_comment (cs : List Char) (c line_no : Nat) (ls : List Nat) :
    Nat × Nat × List Nat × Bool :=
  block_comment_from (cs.drop c) c line_no ls

/-- The extension loop of `Lexer::scan_identifier`: how many further
identifier characters follow the already-consumed first letter. -/
def count_ident_chars : List Char → Nat
  | [] => 0
  | ch :: rest => if isIdentChar ch then count_ident_chars rest + 1 else 0

/-- `Lexer::scan`, the dispatch loop of the lexer, with explicit fuel.
State: cursor `c`, 1-based line number, recorded line starts.  The result is
the list of tokens pushed from this point on together with the final
`is_panicked` flag; `none` is fuel exhaustion or a diverging line-comment
loop.  Branches follow `pre_process`/`scan` of `lexer.rs` case by case. -/
def scan (cs : List Char) : Nat → Nat → Nat → List Nat → Option (List Token × Bool)
  | 0, _, _, _ => none
  | fuel + 1, c, line_no, ls =>
    match cs.get? c with
    | none => some ([], false)
    | some ch =>
      if ch = ' ' ∨ ch = '\t' then
        scan cs fuel (c + 1) line_no ls
      else if ch = '\n' then
        scan cs fuel (c + 1) (line_no + 1) (ls ++ [c + 1])
      else if isAsciiDigitC ch then
        -- Lexer::number: dispatch on the two-character window at the cursor
        if cs.get? c = some '0' ∧ (cs.get? (c + 1) = some 'x' ∨ cs.get? (c + 1) = some 'X') then
          match parse_number_digits 16 (cs.drop (c + 2)) 0 0 with
          | (sum, len) =>
            let t : Token := ⟨.IntNumber sum, line_no, c + 2, c + 2 + len⟩
            (scan cs fuel (c + 2 + len) line_no ls).map (fun r => (t :: r.1, r.2))
        else if cs.get? c = some '0' ∧ (cs.get? (c + 1)).isSome then
          match parse_number_digits 8 (cs.drop c) 0 0 with
          | (sum, len) =>
            let t : Token := ⟨.IntNumber sum, line_no, c, c + len⟩
            (scan cs fuel (c + len) line_no ls).map (fun r => (t :: r.1, r.2))
        else
          match parse_number_digits 10 (cs.drop c) 0 0 with
          | (sum, len) =>
            let t : Token := ⟨.IntNumber sum, line_no, c, c + len⟩
            (scan cs fuel (c + len) line_no ls).map (fun r => (t :: r.1, r.2))
      else if isAsciiAlphaC ch then
        -- Lexer::scan_identifier
        let len := 1 + count_ident_chars (cs.drop (c + 1))
        let name := String.mk ((cs.drop c).take len)
        let sort := match keywordTable name with
          | some k => k
          | none => .Identifier name
        let t : Token := ⟨sort, line_no, c, c + len⟩
        (scan cs fuel (c + len) line_no ls).map (fun r => (t :: r.1, r.2))
      else if ch = '/' then
        match cs.get? (c + 1) with
        | some '/' =>
          match line_comment cs c with
          | none => none
          | some j => scan cs fuel j line_no ls
        | some '*' =>
          match block_comment cs (c + 2) line_no ls with
          | (c', ln', ls', ok) =>
            if ok then scan cs fuel c' ln' ls'
            else (scan cs fuel c' ln' ls').map (fun r => (r.1, true))
        | _ =>
          let t : Token := ⟨.Divide, line_no, c, c + 1⟩
          (scan cs fuel (c + 1) line_no ls).map (fun r => (t :: r.1, r.2))
      else
        -- CharType::Other(ch) with ch ≠ '/': two-character operators first
        match cs.get? c, cs.get? (c + 1) with
        | some a, some b =>
          match doubleSignTable (String.mk [a, b]) with
          | some sort =>
            let t : Token := ⟨sort, line_no, c, c + 2⟩
            (scan cs fuel (c + 2) line_no ls).map (fun r => (t :: r.1, r.2))
          | none =>
            match single_sign ch with
            | some op =>
              let t : Token := ⟨op, line_no, c, c + 1⟩
              (scan cs fuel (c + 1) line_no ls).map (fun r => (t :: r.1, r.2))
            | none => (scan cs fuel (c + 1) line_no ls).map (fun r => (r.1, true))
        | _, _ =>
          match single_sign ch with
          | some op =>
            let t : Token := ⟨op, line_no, c, c + 1⟩
            (scan cs fuel (c + 1) line_no ls).map (fun r => (t :: r.1, r.2))
          | none => (scan cs fuel (c + 1) line_no ls).map (fun r => (r.1, true))

/-- Run the scan loop from the initial lexer state (`current = 0`,
`line_no = 1`, `line_starts = vec![0]`) with enough fuel for any terminating
run (each loop iteration advances the cursor by at least one). -/
def scanAll (cs : List Char) : Option (List Token × Bool) :=
  scan cs (cs.length + 1) 0 1 [0]

/-- The library function `tokenize`: scan, then panic if the error flag was
set.  `none` covers both the panic and a diverging scan. -/
def tokenize (src : String) : Option (List Token) :=
  match scanAll src.toList with
  | some (toks, false) => some toks
  | some (_, true) => none
  | none => none

/-- Content of a token's source span: the characters from `startpos`
(inclusive) to `endpos` (exclusive) of the scanned buffer. -/
def tokenSpan (cs : List Char) (t : Token) : List Char :=
  (cs.drop t.startpos).take (t.endpos - t.startpos)

/-- Concatenation of all token spans, in token order. -/
def spanConcat (cs : List Char) (ts : List Token) : List Char :=
  (ts.map (tokenSpan cs)).flatten

/-- Mode of the comment-stripping scanner: outside any comment, just after
a bare `/`, inside a line comment, inside a block comment, inside a block
comment just after a `*`. -/
inductive StripMode where
  | top | slash | line | blk | blkStar

/-- Modelled from the spec: the "non-whitespace, non-comment content of the
original source in its original order", computed one character at a time.
Whitespace (space, tab, linefeed) is dropped; `//` starts a line comment,
dropped up to the next linefeed; `/*` starts a block comment, dropped
through the matching `*/`; every other character is kept.  A bare `/` is
kept (pending in the `slash` mode until the next character decides). -/
def strippedM : StripMode → List Char → List Char
  | .slash, [] => ['/']
  | _, [] => []
  | .top, ch :: r =>
    if ch = ' ' ∨ ch = '\t' ∨ ch = '\n' then strippedM .top r
    else if ch = '/' then strippedM .slash r
    else ch :: strippedM .top r
  | .slash, ch :: r =>
    if ch = '/' then strippedM .line r
    else if ch = '*' then strippedM .blk r
    else if ch = ' ' ∨ ch = '\t' ∨ ch = '\n' then '/' :: strippedM .top r
    else '/' :: ch :: strippedM .top r
  | .line, ch :: r => if ch = '\n' then strippedM .top r else strippedM .line r
  | .blk, ch :: r => if ch = '*' then strippedM .blkStar r else strippedM .blk r
  | .blkStar, ch :: r =>
    if ch = '/' then strippedM .top r
    else if ch = '*' then strippedM .blkStar r
    else strippedM .blk r

/-- The non-whitespace, non-comment content of a source text. -/
def stripped (cs : List Char) : List Char := strippedM .top cs

/-- A character the comment stripper always keeps: not whitespace and not
the comment-introducing slash. -/
def plainChar (ch : Char) : Prop := ch ≠ ' ' ∧ ch ≠ '\t' ∧ ch ≠ '\n' ∧ ch ≠ '/'

/-- No position holds a hexadecimal prefix `0x`/`0X`. -/
def noHexPrefixPair (cs : List Char) : Prop :=
  ∀ i < cs.length,
    ¬(cs.get? i = some '0' ∧ (cs.get? (i + 1) = some 'x' ∨ cs.get? (i + 1) = some 'X'))

/-- Every line comment `//` is followed by a later linefeed. -/
def lineCommentsClosed (cs : List Char) : Prop :=
  ∀ i < cs.length, cs.get? i = some '/' → cs.get? (i + 1) = some '/' →
    ∃ j < cs.length, i < j ∧ cs.get? j = some '\n'

end Sysy

section ScanExamples
open Sysy

-- sanity checks of the lexer embedding on concrete inputs (dev only)
example : (tokenize "0x1A").map (List.map Token.sort) = some [.IntNumber 26] := rfl
example : (tokenize "017").map (List.map Token.sort) = some [.IntNumber 15] := rfl
example :
    (scanAll "3.25".toList).map (fun r => (r.1.map Token.sort, r.2)) =
      some ([.IntNumber 3, .IntNumber 25], true) := rfl
example :
    (scanAll "0x1G".toList).map (fun r => (r.1.map Token.sort, r.2)) =
      some ([.IntNumber 1, .Identifier "G"], false) := rfl
example :
    (tokenize "int a = 1; // c").isNone := rfl
example :
    (tokenize "int a = 1; // c\n").map (List.map Token.sort) =
      some [.Int, .Identifier "a", .Assign, .IntNumber 1, .Semicolon] := rfl
example :
    (tokenize "a/*x*/==b").map (List.map (fun t => (t.sort, t.startpos, t.endpos))) =
      some [(.Identifier "a", 0, 1), (.Equal, 6, 8), (.Identifier "b", 8, 9)] := rfl

end ScanExamples

namespace Sysy

/-- `BasicType` from `lib.rs`. -/
inductive BasicType where
  | Nil | Int | Float | Const | Void
  | IntArray (dims : List Nat)
  | FloatArray (dims : List Nat)
  | ConstArray (dims : List Nat)
  | Func (ret : BasicType)
deriving DecidableEq, Repr

/-- `Scope` from `lib.rs`. -/
inductive Scope where
  | Global | Local | Params
deriving DecidableEq, Repr

mutual
/-- `parser::Node`: an AST node with its kind, resolved basic type and
half-open source span. -/
inductive Node where
  | mk (node_type : NodeType) (basic_type : BasicType) (startpos endpos : Nat) : Node
/-- `NodeType` from `lib.rs`. -/
inductive NodeType where
  | Decl (bt : BasicType) (name : String) (dims : Option (List Node))
      (inits : Option (List Node)) (scope : Scope)
  | DeclStmt (decls : List Node)
  | InitList (elems : List Node)
  | Assign (name : String) (indexes : Option (List Node)) (expr : Node) (lhs : Node)
  | ExprStmt (expr : Node)
  | Access (name : String) (indexes : Option (List Node)) (def_node : Node)
  | BinOp (op : TokenType) (lhs rhs : Node)
  | Func (ret : BasicType) (name : String) (args : List Node) (body : Node)
  | Block (stmts : List Node)
  | Return (expr : Option Node)
  | Call (name : String) (args : List Node) (def_node : Node)
  | If (cond on_true : Node) (on_false : Option Node)
  | While (cond body : Node)
  | Continue
  | Break
  | Nil
  | Number (num : Int)
  | FloatNumber
end

/-- Field projection for `Node`. -/
def Node.node_type : Node → NodeType
  | .mk nt _ _ _ => nt

/-- Field projection for `Node`. -/
def Node.basic_type : Node → BasicType
  | .mk _ bt _ _ => bt

/-- Field projection for `Node`. -/
def Node.startpos : Node → Nat
  | .mk _ _ s _ => s

/-- Field projection for `Node`. -/
def Node.endpos : Node → Nat
  | .mk _ _ _ e => e

/-- `Node::new`: a fresh node with type `Nil` and a zero span. -/
def Node.new (nt : NodeType) : Node := .mk nt .Nil 0 0

/-- `matches!(node.node_type, NodeType::Func(..))`. -/
def Node.isFuncB (n : Node) : Bool :=
  match n.node_type with
  | .Func _ _ _ _ => true
  | _ => false

/-- `matches!(node.node_type, NodeType::DeclStmt(..))`. -/
def Node.isDeclStmtB (n : Node) : Bool :=
  match n.node_type with
  | .DeclStmt _ => true
  | _ => false

/-- `matches!(node.node_type, NodeType::Decl(..))`. -/
def Node.isDeclB (n : Node) : Bool :=
  match n.node_type with
  | .Decl _ _ _ _ _ => true
  | _ => false

/-- `matches!(node.node_type, NodeType::Nil)`. -/
def Node.isNilB (n : Node) : Bool :=
  match n.node_type with
  | .Nil => true
  | _ => false

/-- `matches!(ty, BasicType::IntArray(_))`. -/
def BasicType.isIntArrayB : BasicType → Bool
  | .IntArray _ => true
  | _ => false

/-- `matches!(ty, BasicType::ConstArray(_))`. -/
def BasicType.isConstArrayB : BasicType → Bool
  | .ConstArray _ => true
  | _ => false

/-- `semantics::Var`: a symbol-table binding. -/
structure Var where
  basic_type : BasicType
  node : Node

/-- A `HashMap<String, Var>`, modelled as an association list whose newest
binding shadows older ones (only `get`/`insert` are observed). -/
def mapFind : List (String × Var) → String → Option Var
  | [], _ => none
  | (k, v) :: rest, name => if k = name then some v else mapFind rest name

/-- `HashMap::insert`. -/
def mapInsert (m : List (String × Var)) (name : String) (v : Var) : List (String × Var) :=
  (name, v) :: m

/-- `semantics::Runtime`: the semantic analyzer's context.  `locals` keeps
the Rust `Vec` order: frames are pushed at the end, so the innermost frame
is the last element. -/
structure Runtime where
  global : List (String × Var)
  locals : List (List (String × Var))
  loop_count : Nat
  cur_func_name : String
  cur_func_type : BasicType

/-- `Runtime::new`. -/
def Runtime.new : Runtime := ⟨[], [], 0, "", .Nil⟩

/-- `Runtime::enter_scope`: push a fresh local frame. -/
def Runtime.enter_scope (rt : Runtime) : Runtime :=
  { rt with locals := rt.locals ++ [[]] }

/-- `Runtime::exit_scope`: pop the innermost local frame. -/
def Runtime.exit_scope (rt : Runtime) : Runtime :=
  { rt with locals := rt.locals.dropLast }

/-- `Runtime::insert`.  Step 1 of the Rust function only looks up
already-defined names and both of its error-handling bodies are empty, so it
has no effect; step 2 inserts into the global table when there is no local
frame or the node is a function definition, else into the innermost frame. -/
def Runtime.insert (rt : Runtime) (name : String) (bt : BasicType) (n : Node) : Runtime :=
  if rt.locals.isEmpty ∨ n.isFuncB then
    { rt with global := mapInsert rt.global name ⟨bt, n⟩ }
  else
    { rt with
      locals := rt.locals.dropLast ++ [mapInsert (rt.locals.getLast?.getD []) name ⟨bt, n⟩] }

/-- The frame search of `Runtime::find`: first hit wins.  `Runtime::find`
iterates the local frames in reverse (innermost first), so this is applied
to `locals.reverse`. -/
def findFrames : List (List (String × Var)) → String → Option Var
  | [], _ => none
  | frame :: rest, name =>
    match mapFind frame name with
    | some v => some v
    | none => findFrames rest name

/-- `Runtime::find`: search the local frames innermost-to-outermost, then
the global table.  The not-found case is `unreachable!()` in the source (a
panic), modelled as `none`.  (The Rust function also takes the referring
node, used only for diagnostics; it is omitted.) -/
def Runtime.find (rt : Runtime) (name : String) : Option (BasicType × Node) :=
  match findFrames rt.locals.reverse name with
  | some var => some (var.basic_type, var.node)
  | none =>
    match mapFind rt.global name with
    | some var => some (var.basic_type, var.node)
    | none => none

/-- `TokenType::calc` from `eval` in `semantics.rs`, on `i32` values:
arithmetic wraps, division and remainder truncate toward zero and panic
(`none`) on a zero divisor or on `MIN / -1`; relational and logical
operators produce `0`/`1`; any other token is `unreachable!()`. -/
def calc_op (op : TokenType) (lhs rhs : Int) : Option Int :=
  match op with
  | .Plus => some (wrap32 (lhs + rhs))
  | .Minus => some (wrap32 (lhs - rhs))
  | .Multi => some (wrap32 (lhs * rhs))
  | .Divide => if rhs = 0 ∨ (lhs = -2 ^ 31 ∧ rhs = -1) then none else some (lhs.tdiv rhs)
  | .Mods => if rhs = 0 ∨ (lhs = -2 ^ 31 ∧ rhs = -1) then none else some (lhs.tmod rhs)
  | .Equal => some (if lhs = rhs then 1 else 0)
  | .NotEqual => some (if lhs = rhs then 0 else 1)
  | .Lesserthan => some (if lhs < rhs then 1 else 0)
  | .Greaterthan => some (if rhs < lhs then 1 else 0)
  | .LessEqual => some (if lhs ≤ rhs then 1 else 0)
  | .GreatEqual => some (if rhs ≤ lhs then 1 else 0)
  | .And => some (if lhs ≠ 0 ∧ rhs ≠ 0 then 1 else 0)
  | .Or => some (if lhs ≠ 0 ∨ rhs ≠ 0 then 1 else 0)
  | _ => none

mutual
/-- `semantics::eval`, the constant-expression evaluator, with fuel.  The
result is the `i32` value together with the number of diagnostics printed on
the way; `none` models a panic (an `unreachable!()`, an arithmetic panic, or
an out-of-bounds `unwrap`). -/
def eval : Nat → Node → Runtime → Option (Int × Nat)
  | 0, _, _ => none
  | fuel + 1, node, ctx =>
    match node.node_type with
    | .Nil => some (0, 0)
    | .Call _ _ _ => none
    | .Number num => some (num, 0)
    | .BinOp ttype lhs rhs =>
      match eval fuel lhs ctx with
      | none => none
      | some (l, e1) =>
        match eval fuel rhs ctx with
        | none => none
        | some (r, e2) =>
          match calc_op ttype l r with
          | none => none
          | some v => some (v, e1 + e2)
    | .Access name indexes _ =>
      match ctx.find name with
      | none => none
      | some (btype, def_node) =>
        match btype with
        | .Const =>
          -- "Access constant {} with index" is reported but does not stop
          let eIdx := if indexes.isSome then 1 else 0
          match def_node.node_type with
          | .Decl _ _ _ initlist _ =>
            match initlist with
            | none => none
            | some l =>
              match l.head? with
              | none => none
              | some n0 =>
                match n0.node_type with
                | .Number num => some (num, eIdx)
                | _ => none
          | _ => none
        | .ConstArray dims =>
          match indexes with
          | none => none
          | some index =>
            if index.length = dims.length then
              match evalOffset fuel index dims 0 0 ctx with
              | none => none
              | some (offset, _) =>
                -- NOTE: the source matches on `node.node_type` here, not on
                -- the found declaration `def_node`; for an `Access` node
                -- this always falls into the `unreachable!()` arm.
                match node.node_type with
                | .Decl _ _ _ initlist _ =>
                  match initlist with
                  | none => none
                  | some l =>
                    match l.get? (usizeOfI32 offset) with
                    | some n =>
                      match n.node_type with
                      | .Number num => some (num, 0)
                      | _ => none
                    | none => none
                | _ => none
            else none
        | .Int | .IntArray _ => none
        | _ => none
    | _ => none

/-- The offset loop in `eval`'s `ConstArray` arm: evaluate each index and
accumulate `offset += id * dims[i+1]` (or `+= id` for the last dimension). -/
def evalOffset : Nat → List Node → List Nat → Nat → Int → Runtime → Option (Int × Nat)
  | 0, _, _, _, _, _ => none
  | _ + 1, [], _, _, offset, _ => some (offset, 0)
  | fuel + 1, idxNode :: rest, dims, i, offset, ctx =>
    match eval fuel idxNode ctx with
    | none => none
    | some (id, e1) =>
      let offset' :=
        match dims.get? (i + 1) with
        | some n => wrap32 (offset + wrap32 (id * (n : Int)))
        | none => wrap32 (offset + id)
      match evalOffset fuel rest dims (i + 1) offset' ctx with
      | none => none
      | some (res, e2) => some (res, e1 + e2)
end

/-- Dimension-mismatch count for an array argument in `traverse`'s `Call`
arm: the pairs of `call_dims.zip(def_dims).skip(1)` that differ, each
reported with `error_spot`. -/
def countDimMismatch (call_dims def_dims : List Nat) : Nat :=
  ((call_dims.zip def_dims).drop 1).foldl (fun acc p => if p.1 ≠ p.2 then acc + 1 else acc) 0

/-- The per-argument check in `traverse`'s `Call` arm: scalar `Int`
parameters accept `Int`/`Const` arguments; `IntArray` parameters accept
`IntArray` arguments with matching dimensions from the second on; anything
else is "Unmatched type in function call". -/
def callArgErrs (new_call_arg def_arg : Node) : Nat :=
  match def_arg.node_type with
  | .Decl def_bt _ _ _ _ =>
    if def_bt = .Int ∧ (new_call_arg.basic_type = .Int ∨ new_call_arg.basic_type = .Const) then 0
    else
      match def_bt, new_call_arg.basic_type with
      | .IntArray def_dims, .IntArray call_dims => countDimMismatch call_dims def_dims
      | _, _ => 1
  | _ => 1

/-- The array-type resolution of `traverse`'s `Decl` arm (step 1). -/
def declArrayTy (bt : BasicType) (n : List Nat) : BasicType :=
  if bt = .Int ∨ bt.isIntArrayB then .IntArray n
  else if bt = .Const ∨ bt.isConstArrayB then .ConstArray n
  else bt

/-- The zero node pushed when an initializer list is padded. -/
def zeroConstNode : Node := .mk (.Number 0) .Const 0 0

/-- The product `max` of the `Number` dimensions from `level` on, as an
`i32` (`max *= dim` in a loop starting from 1). -/
def dimsProd (dims : List Node) : Int :=
  dims.foldl
    (fun m dn =>
      match dn.node_type with
      | .Number d => wrap32 (m * d)
      | _ => m) 1

mutual
/-- `semantics::traverse`, the bottom-up semantic rewrite, with fuel.
Returns the annotated node, the updated context and the number of
diagnostics printed (the `error_spot` calls do not stop the traversal: the
`panic!` in `error_spot` is commented out); `none` models a panic through
`unreachable!()`, `unwrap` or the arithmetic of `eval`. -/
def traverse : Nat → Node → Runtime → Option (Node × Runtime × Nat)
  | 0, _, _ => none
  | fuel + 1, node, ctx =>
    match node.node_type with
    | .Break => some (node, ctx, if ctx.loop_count = 0 then 1 else 0)
    | .Continue => some (node, ctx, if ctx.loop_count = 0 then 1 else 0)
    | .Number _ => some (.mk node.node_type .Const node.startpos node.endpos, ctx, 0)
    | .DeclStmt decls =>
      match traverseList fuel decls ctx with
      | none => none
      | some (new, ctx1, e) => some (Node.new (.DeclStmt new), ctx1, e)
    | .Decl bt name dims inits scope =>
      -- step 1: resolve the dimensions
      match
        (match dims with
         | some dim =>
           (evalDims fuel dim ctx).map (fun r => (some r.1, declArrayTy bt r.2.1, r.2.2))
         | none => some (none, bt, 0) : Option (Option (List Node) × BasicType × Nat)) with
      | none => none
      | some (new_dims, ty, e1) =>
        -- step 2: process the initializer list
        match
          (match inits with
           | some init_nodes =>
             match new_dims, init_nodes with
             | none, [init0] =>
               -- a scalar initializer
               match traverse fuel init0 ctx with
               | none => none
               | some (tn, ctx1, e2) =>
                 if bt = .Const ∨ scope = .Global then
                   match eval fuel init0 ctx1 with
                   | none => none
                   | some (v, e3) =>
                     some ([Node.mk (.Number v) .Const init0.startpos init0.endpos], ctx1,
                       e2 + e3)
                 else some ([tn], ctx1, e2)
             | some n_dims, init_nodes' =>
               if scope = .Global then expand_inits fuel n_dims init_nodes' true ctx 0
               else expand_inits fuel n_dims init_nodes' false ctx 0
             | none, _ => none    -- "error_spot initializer for {}"; unreachable!()
           | none => some ([], ctx, 0) : Option (List Node × Runtime × Nat)) with
        | none => none
        | some (new_inits, ctx2, e2) =>
          let n_inits := if new_inits.isEmpty then none else some new_inits
          let new_node := Node.new (.Decl ty name new_dims n_inits scope)
          some (new_node, ctx2.insert name ty new_node, e1 + e2)
    | .Access name indexes _ =>
      match ctx.find name with
      | none => none
      | some (basic_type, n) =>
        match n.node_type with
        | .Decl _ _ _ _ _ =>
          match basic_type with
          | .Const =>
            match eval fuel node ctx with
            | none => none
            | some (num, e) =>
              some (.mk (.Number num) .Const node.startpos node.endpos, ctx, e)
          | .Int =>
            let nn : Node := .mk n.node_type basic_type n.startpos n.endpos
            some (.mk (.Access name indexes nn) .Int node.startpos node.endpos, ctx, 0)
          | .IntArray dims =>
            match indexes with
            | none =>
              let nn : Node := .mk n.node_type basic_type n.startpos n.endpos
              some (.mk (.Access name none nn) basic_type node.startpos node.endpos, ctx, 0)
            | some idxs =>
              match traverseIndexList fuel idxs ctx with
              | none => none
              | some (new_indexes, ctx1, e1) =>
                let bty := if new_indexes.length = dims.length then BasicType.Int
                  else BasicType.IntArray (dims.drop new_indexes.length)
                let nn : Node := .mk n.node_type basic_type n.startpos n.endpos
                some (.mk (.Access name (some new_indexes) nn) bty node.startpos node.endpos,
                  ctx1, e1)
          | .ConstArray dims =>
            match indexes with
            | none =>
              let nn : Node := .mk n.node_type basic_type n.startpos n.endpos
              some (.mk (.Access name none nn) basic_type node.startpos node.endpos, ctx, 0)
            | some idxs =>
              match traverseIndexList fuel idxs ctx with
              | none => none
              | some (new_indexes, ctx1, e1) =>
                let bty := if new_indexes.length = dims.length then BasicType.Const
                  else BasicType.ConstArray (dims.drop new_indexes.length)
                let nn : Node := .mk n.node_type basic_type n.startpos n.endpos
                some (.mk (.Access name (some new_indexes) nn) bty node.startpos node.endpos,
                  ctx1, e1)
          | _ => none
        | _ => none    -- "{} cannot be accessed since it is a function"; unreachable!()
    | .BinOp ttype lhs rhs =>
      match traverse fuel lhs ctx with
      | none => none
      | some (new_lhs, ctx1, e1) =>
        let e1' := e1 + (if new_lhs.basic_type ≠ .Int ∧ new_lhs.basic_type ≠ .Const then 1 else 0)
        match traverse fuel rhs ctx1 with
        | none => none
        | some (new_rhs, ctx2, e2) =>
          let e2' := e2 +
            (if new_rhs.basic_type ≠ .Int ∧ new_rhs.basic_type ≠ .Const then 1 else 0)
          if new_lhs.basic_type = .Const ∧ new_rhs.basic_type = .Const then
            match eval fuel node ctx2 with
            | none => none
            | some (v, e3) =>
              some (.mk (.Number v) .Const node.startpos node.endpos, ctx2, e1' + e2' + e3)
          else
            some (.mk (.BinOp ttype new_lhs new_rhs) .Int node.startpos node.endpos, ctx2,
              e1' + e2')
    | .Call name call_args _ =>
      match ctx.find name with
      | none => none
      | some (_, n) =>
        match n.node_type with
        | .Func ret _ def_args _ =>
          let eArity := if call_args.length ≠ def_args.length then 1 else 0
          match traverseCallArgs fuel call_args def_args ctx with
          | none => none
          | some (new_call_args, ctx1, e1) =>
            some (.mk (.Call name new_call_args n) ret node.startpos node.endpos, ctx1,
              eArity + e1)
        | _ => none    -- "{} is not a function"; unreachable!()
    | .Assign name indexes expr _ =>
      match ctx.find name with
      | none => none
      | some (basic_type, n) =>
        match n.node_type with
        | .Decl _ _ _ _ _ =>
          match basic_type with
          | .Const => none         -- "Cannot assign to constant"; unreachable!()
          | .ConstArray _ => none  -- "Cannot assign to constant"; unreachable!()
          | .Int =>
            let eIdx := if indexes.isSome then 1 else 0
            match traverse fuel expr ctx with
            | none => none
            | some (new_expr, ctx1, e1) =>
              let eTy := if new_expr.basic_type ≠ .Int ∧ new_expr.basic_type ≠ .Const
                then 1 else 0
              some (.mk (.Assign name none new_expr n) .Nil node.startpos node.endpos, ctx1,
                eIdx + e1 + eTy)
          | .IntArray dims =>
            let eNone := if indexes.isNone then 1 else 0
            match traverse fuel expr ctx with
            | none => none
            | some (new_expr, ctx1, e1) =>
              let eTy := if new_expr.basic_type ≠ .Int ∧ new_expr.basic_type ≠ .Const
                then 1 else 0
              match indexes with
              | none => none    -- indexes.as_ref().unwrap() panics
              | some idxs =>
                let eLen := if idxs.length ≠ dims.length then 1 else 0
                match traverseIndexList fuel idxs ctx1 with
                | none => none
                | some (new_indexes, ctx2, e2) =>
                  let decl_node : Node := .mk n.node_type basic_type n.startpos n.endpos
                  some (.mk (.Assign name (some new_indexes) new_expr decl_node) .Nil
                      node.startpos node.endpos, ctx2, eNone + e1 + eTy + eLen + e2)
          | _ => none
        | _ => none    -- "Cannot assign to function {}"; unreachable!()
    | .ExprStmt expr =>
      match traverse fuel expr ctx with
      | none => none
      | some (ne, ctx1, e) =>
        some (.mk (.ExprStmt ne) .Nil node.startpos node.endpos, ctx1, e)
    | .Block stmts =>
      match traverseList fuel stmts ctx.enter_scope with
      | none => none
      | some (new_stmts, ctx1, e) =>
        some (.mk (.Block new_stmts) .Nil node.startpos node.endpos, ctx1.exit_scope, e)
    | .If cond on_true on_false =>
      match traverse fuel cond ctx with
      | none => none
      | some (new_cond, ctx1, e1) =>
        let eTy := if new_cond.basic_type ≠ .Int ∧ new_cond.basic_type ≠ .Const then 1 else 0
        -- the Rust code computes the else branch before the then branch
        match on_false with
        | some fb =>
          match traverse fuel fb ctx1 with
          | none => none
          | some (nf, ctx2, e2) =>
            match traverse fuel on_true ctx2 with
            | none => none
            | some (nt, ctx3, e3) =>
              some (.mk (.If new_cond nt (some nf)) .Nil node.startpos node.endpos, ctx3,
                e1 + eTy + e2 + e3)
        | none =>
          match traverse fuel on_true ctx1 with
          | none => none
          | some (nt, ctx2, e3) =>
            some (.mk (.If new_cond nt none) .Nil node.startpos node.endpos, ctx2,
              e1 + eTy + e3)
    | .While cond body =>
      match traverse fuel cond ctx with
      | none => none
      | some (new_cond, ctx1, e1) =>
        let eTy := if new_cond.basic_type ≠ .Int ∧ new_cond.basic_type ≠ .Const then 1 else 0
        match traverse fuel body { ctx1 with loop_count := ctx1.loop_count + 1 } with
        | none => none
        | some (new_body, ctx2, e2) =>
          some (.mk (.While new_cond new_body) .Nil node.startpos node.endpos,
            { ctx2 with loop_count := ctx2.loop_count - 1 }, e1 + eTy + e2)
    | .Return expr =>
      match expr with
      | some exp =>
        match traverse fuel exp ctx with
        | none => none
        | some (ne, ctx1, e1) =>
          let ret_type := if ne.basic_type = .Const then BasicType.Int else ne.basic_type
          let eR := if ret_type ≠ ctx1.cur_func_type then 1 else 0
          some (.mk (.Return (some ne)) .Nil node.startpos node.endpos, ctx1, e1 + eR)
      | none =>
        let eR := if BasicType.Void ≠ ctx.cur_func_type then 1 else 0
        some (.mk (.Return none) .Nil node.startpos node.endpos, ctx, eR)
    | .Func ret name args body =>
      let ctx1 := { ctx with cur_func_name := name, cur_func_type := ret }.enter_scope
      match traverseList fuel args ctx1 with
      | none => none
      | some (new_args, ctx2, e1) =>
        let ctx3 := ctx2.insert name (.Func ret) (Node.new (.Func ret name new_args body))
        match traverse fuel body ctx3 with
        | none => none
        | some (new_body, ctx4, e2) =>
          some (.mk (.Func ret name new_args new_body) .Nil node.startpos node.endpos,
            ctx4.exit_scope, e1 + e2)
    | .InitList _ => none    -- `_ => unreachable!()`
    | .Nil => none
    | .FloatNumber => none

/-- Sequential traversal of a node list, threading the context (the loops in
`traverse`'s `DeclStmt`, `Block` and `Func` arms). -/
def traverseList : Nat → List Node → Runtime → Option (List Node × Runtime × Nat)
  | 0, _, _ => none
  | _ + 1, [], ctx => some ([], ctx, 0)
  | fuel + 1, n :: rest, ctx =>
    match traverse fuel n ctx with
    | none => none
    | some (n', ctx1, e1) =>
      match traverseList fuel rest ctx1 with
      | none => none
      | some (ns, ctx2, e2) => some (n' :: ns, ctx2, e1 + e2)

/-- The index loops in `traverse`'s `Access` and `Assign` arms: traverse
each index expression, reporting one diagnositc per index that is neither
`Int` nor `Const`. -/
def traverseIndexList : Nat → List Node → Runtime → Option (List Node × Runtime × Nat)
  | 0, _, _ => none
  | _ + 1, [], ctx => some ([], ctx, 0)
  | fuel + 1, idx :: rest, ctx =>
    match traverse fuel idx ctx with
    | none => none
    | some (ni, ctx1, e1) =>
      let eTy := if ni.basic_type ≠ .Int ∧ ni.basic_type ≠ .Const then 1 else 0
      match traverseIndexList fuel rest ctx1 with
      | none => none
      | some (ns, ctx2, e2) => some (ni :: ns, ctx2, e1 + eTy + e2)

/-- The argument loop in `traverse`'s `Call` arm: `call_args.zip(def_args)`
stops at the shorter list; each argument is traversed, collected, and
checked against its parameter. -/
def traverseCallArgs : Nat → List Node → List Node → Runtime → Option (List Node × Runtime × Nat)
  | 0, _, _, _ => none
  | _ + 1, [], _, ctx => some ([], ctx, 0)
  | _ + 1, _ :: _, [], ctx => some ([], ctx, 0)
  | fuel + 1, ca :: cas, da :: das, ctx =>
    match traverse fuel ca ctx with
    | none => none
    | some (nca, ctx1, e1) =>
      match traverseCallArgs fuel cas das ctx1 with
      | none => none
      | some (ns, ctx2, e2) => some (nca :: ns, ctx2, e1 + callArgErrs nca da + e2)

/-- The dimension loop in `traverse`'s `Decl` arm (step 1): evaluate each
dimension expression, report "Dimension of {} should > 0" for a non-positive
result on a non-`Nil` node, and collect both the folded `Number` nodes and
the `usize` values. -/
def evalDims : Nat → List Node → Runtime → Option (List Node × List Nat × Nat)
  | 0, _, _ => none
  | _ + 1, [], _ => some ([], [], 0)
  | fuel + 1, dimNode :: rest, ctx =>
    match eval fuel dimNode ctx with
    | none => none
    | some (result, e1) =>
      let eDim := if result ≤ 0 ∧ ¬ dimNode.isNilB then 1 else 0
      match evalDims fuel rest ctx with
      | none => none
      | some (ns, vs, e2) =>
        some (Node.mk (.Number result) .Const dimNode.startpos dimNode.endpos :: ns,
          usizeOfI32 result :: vs, e1 + eDim + e2)

/-- `semantics::expand_inits`: expand a (possibly nested) initializer list
against the dimension list from `level` on.  Reports "Dimension of
initializer exceeded" when the nesting is deeper than the dimensions,
"Length of initializer exceeded" when the flat expansion is longer than the
product of the remaining dimensions, and zero-pads a shorter expansion. -/
def expand_inits : Nat → List Node → List Node → Bool → Runtime → Nat →
    Option (List Node × Runtime × Nat)
  | 0, _, _, _, _, _ => none
  | fuel + 1, dims, inits, need_eval, ctx, level =>
    match
      (if level = dims.length then
        match inits.getLast? with
        | none => none             -- inits.last().unwrap() panics on an empty list
        | some _ => some 1
      else some 0 : Option Nat) with
    | none => none
    | some eDim =>
      if level ≤ dims.length then
        let max := dimsProd (dims.drop level)
        match expand_loop fuel dims inits need_eval ctx level with
        | none => none
        | some (expanded, ctx1, eLoop) =>
          if usizeOfI32 max < expanded.length then
            match inits.getLast? with
            | none => none
            | some _ => some (expanded, ctx1, eDim + eLoop + 1)
          else
            some (expanded ++ List.replicate (usizeOfI32 max - expanded.length) zeroConstNode,
              ctx1, eDim + eLoop)
      else none                    -- dims.get(level..).unwrap() panics

/-- The element loop of `expand_inits`: a nested `InitList` recurses one
level deeper; any other element is constant-evaluated (`need_eval`) or
traversed. -/
def expand_loop : Nat → List Node → List Node → Bool → Runtime → Nat →
    Option (List Node × Runtime × Nat)
  | 0, _, _, _, _, _ => none
  | _ + 1, _, [], _, ctx, _ => some ([], ctx, 0)
  | fuel + 1, dims, init_node :: rest, need_eval, ctx, level =>
    match init_node.node_type with
    | .InitList inits2 =>
      match expand_inits fuel dims inits2 need_eval ctx (level + 1) with
      | none => none
      | some (sub, ctx1, e1) =>
        match expand_loop fuel dims rest need_eval ctx1 level with
        | none => none
        | some (restv, ctx2, e2) => some (sub ++ restv, ctx2, e1 + e2)
    | _ =>
      if need_eval then
        match eval fuel init_node ctx with
        | none => none
        | some (v, e1) =>
          match expand_loop fuel dims rest need_eval ctx level with
          | none => none
          | some (restv, ctx2, e2) =>
            some (Node.mk (.Number v) .Const init_node.startpos init_node.endpos :: restv,
              ctx2, e1 + e2)
      else
        match traverse fuel init_node ctx with
        | none => none
        | some (ini, ctx1, e1) =>
          match expand_loop fuel dims rest need_eval ctx1 level with
          | none => none
          | some (restv, ctx2, e2) => some (ini :: restv, ctx2, e1 + e2)
end

/-- `parser::Parser`'s state: the token vector, the cursor, and (threaded
explicitly here) the number of `wrong_token` diagnostics printed so far.
`Token::wrong_token` prints a report and returns — its `panic!` is commented
out in the source — so reporting never stops the parse by itself. -/
structure PState where
  tokens : List Token
  current : Nat
  errors : Nat

/-- `Parser::get_current_token`: `tokens[current]`, panicking (`none`) when
the cursor is out of bounds. -/
def get_current_token (st : PState) : Option Token := st.tokens.get? st.current

/-- `Parser::get_startpos`: `tokens[current].startpos`. -/
def get_startpos (st : PState) : Option Nat :=
  (st.tokens.get? st.current).map Token.startpos

/-- `Parser::get_endpos`: `tokens[current - 1].endpos` (underflow of the
`usize` subtraction, or an out-of-bounds index, panics). -/
def get_endpos (st : PState) : Option Nat :=
  if st.current = 0 then none
  else (st.tokens.get? (st.current - 1)).map Token.endpos

/-- `Parser::type_judge`: consume the current token and answer `true` only
when it matches; leave the cursor alone and answer `false` otherwise. -/
def type_judge (st : PState) (sort : TokenType) : Option (Bool × PState) :=
  match get_current_token st with
  | none => none
  | some t =>
    if t.sort ≠ sort then some (false, st)
    else some (true, { st with current := st.current + 1 })

/-- `Parser::type_check`, the parser's `expect`: on a mismatch it reports a
syntax error via `wrong_token` (counted in `errors`) and then — like on a
match — advances the cursor by one and lets the parse continue. -/
def type_check (st : PState) (sort : TokenType) : Option PState :=
  match get_current_token st with
  | none => none
  | some t =>
    if t.sort ≠ sort then
      some { st with current := st.current + 1, errors := st.errors + 1 }
    else some { st with current := st.current + 1 }

/-- `Parser::get_identifier`: consume and return an identifier's name; on
any other token report `wrong_token` and return `""` without advancing. -/
def get_identifier (st : PState) : Option (String × PState) :=
  match get_current_token st with
  | none => none
  | some t =>
    match t.sort with
    | .Identifier id => some (id, { st with current := st.current + 1 })
    | _ => some ("", { st with errors := st.errors + 1 })

/-- Re-span a node: `Node::bound(startpos, endpos)`. -/
def setBound (n : Node) (sp ep : Nat) : Node := .mk n.node_type n.basic_type sp ep

mutual
/-- `Parser::seek_array`: collect `[len]` dimension suffixes; in parameter
position the first bracket pair may be empty (skipped to `]`, recorded as a
`Nil` dimension). -/
def seek_array : Nat → Bool → PState → Option (Option (List Node) × PState)
  | 0, _, _ => none
  | fuel + 1, is_param, st =>
    match seek_array_loop fuel is_param st with
    | none => none
    | some (v, st1) => some (if v.isEmpty then none else some v, st1)

/-- The `while type_judge(LeftBracket)` loop of `seek_array`; `allow_empty`
starts as `is_param` and is cleared after the first empty pair. -/
def seek_array_loop : Nat → Bool → PState → Option (List Node × PState)
  | 0, _, _ => none
  | fuel + 1, allow_empty, st =>
    match type_judge st .LeftBracket with
    | none => none
    | some (false, _) => some ([], st)
    | some (true, st1) =>
      match get_startpos st1 with
      | none => none
      | some sp =>
        if allow_empty then
          match seek_skip_rbracket fuel st1 with
          | none => none
          | some st2 =>
            match get_endpos st2 with
            | none => none
            | some ep =>
              match seek_array_loop fuel false st2 with
              | none => none
              | some (v, st3) => some (setBound (Node.new .Nil) sp ep :: v, st3)
        else
          match const_exp fuel false st1 with
          | none => none
          | some (len, st2) =>
            match type_check st2 .RightBracket with
            | none => none
            | some st3 =>
              match seek_array_loop fuel allow_empty st3 with
              | none => none
              | some (v, st4) => some (len :: v, st4)

/-- The `while !type_judge(RightBracket) { current += 1 }` skip loop inside
`seek_array`'s empty-bracket case. -/
def seek_skip_rbracket : Nat → PState → Option PState
  | 0, _ => none
  | fuel + 1, st =>
    match type_judge st .RightBracket with
    | none => none
    | some (true, st1) => some st1
    | some (false, _) => seek_skip_rbracket fuel { st with current := st.current + 1 }

/-- `Parser::const_exp`. -/
def const_exp : Nat → Bool → PState → Option (Node × PState)
  | 0, _, _ => none
  | fuel + 1, cond, st => add_exp fuel cond st

/-- `Parser::add_exp`: a left-associative fold over `+`/`-`. -/
def add_exp : Nat → Bool → PState → Option (Node × PState)
  | 0, _, _ => none
  | fuel + 1, cond, st =>
    match get_startpos st with
    | none => none
    | some sp =>
      match mul_exp fuel cond st with
      | none => none
      | some (lhs, st1) => add_loop fuel cond sp lhs st1

/-- The operator loop of `add_exp`. -/
def add_loop : Nat → Bool → Nat → Node → PState → Option (Node × PState)
  | 0, _, _, _, _ => none
  | fuel + 1, cond, sp, lhs, st =>
    match type_judge st .Plus with
    | none => none
    | some (true, st1) =>
      match mul_exp fuel cond st1 with
      | none => none
      | some (rhs, st2) =>
        match get_endpos st2 with
        | none => none
        | some ep => add_loop fuel cond sp (Node.mk (.BinOp .Plus lhs rhs) .Nil sp ep) st2
    | some (false, _) =>
      match type_judge st .Minus with
      | none => none
      | some (true, st1) =>
        match mul_exp fuel cond st1 with
        | none => none
        | some (rhs, st2) =>
          match get_endpos st2 with
          | none => none
          | some ep => add_loop fuel cond sp (Node.mk (.BinOp .Minus lhs rhs) .Nil sp ep) st2
      | some (false, _) => some (lhs, st)

/-- `Parser::mul_exp`: a left-associative fold over `*`/`/`/`%`. -/
def mul_exp : Nat → Bool → PState → Option (Node × PState)
  | 0, _, _ => none
  | fuel + 1, cond, st =>
    match get_startpos st with
    | none => none
    | some sp =>
      match unary_exp fuel cond st with
      | none => none
      | some (lhs, st1) => mul_loop fuel cond sp lhs st1

/-- The operator loop of `mul_exp`. -/
def mul_loop : Nat → Bool → Nat → Node → PState → Option (Node × PState)
  | 0, _, _, _, _ => none
  | fuel + 1, cond, sp, lhs, st =>
    match type_judge st .Multi with
    | none => none
    | some (true, st1) =>
      match unary_exp fuel cond st1 with
      | none => none
      | some (rhs, st2) =>
        match get_endpos st2 with
        | none => none
        | some ep => mul_loop fuel cond sp (Node.mk (.BinOp .Multi lhs rhs) .Nil sp ep) st2
    | some (false, _) =>
      match type_judge st .Divide with
      | none => none
      | some (true, st1) =>
        match unary_exp fuel cond st1 with
        | none => none
        | some (rhs, st2) =>
          match get_endpos st2 with
          | none => none
          | some ep => mul_loop fuel cond sp (Node.mk (.BinOp .Divide lhs rhs) .Nil sp ep) st2
      | some (false, _) =>
        match type_judge st .Mods with
        | none => none
        | some (true, st1) =>
          match unary_exp fuel cond st1 with
          | none => none
          | some (rhs, st2) =>
            match get_endpos st2 with
            | none => none
            | some ep => mul_loop fuel cond sp (Node.mk (.BinOp .Mods lhs rhs) .Nil sp ep) st2
        | some (false, _) => some (lhs, st)

/-- `Parser::unary_exp`: prefix `+` is skipped, prefix `-` becomes
`0 - operand`, prefix `!` (condition context only) becomes `operand == 0`. -/
def unary_exp : Nat → Bool → PState → Option (Node × PState)
  | 0, _, _ => none
  | fuel + 1, cond, st =>
    match get_startpos st with
    | none => none
    | some sp => unary_loop fuel cond sp st

/-- The prefix loop of `unary_exp`. -/
def unary_loop : Nat → Bool → Nat → PState → Option (Node × PState)
  | 0, _, _, _ => none
  | fuel + 1, cond, sp, st =>
    match type_judge st .Plus with
    | none => none
    | some (true, st1) => unary_loop fuel cond sp st1
    | some (false, _) =>
      match type_judge st .Minus with
      | none => none
      | some (true, st1) =>
        match primary_exp fuel cond st1 with
        | none => none
        | some (p, st2) =>
          match get_endpos st2 with
          | none => none
          | some ep =>
            some (Node.mk (.BinOp .Minus (Node.new (.Number 0)) p) .Nil sp ep, st2)
      | some (false, _) =>
        if cond then
          match type_judge st .Not with
          | none => none
          | some (true, st1) =>
            match primary_exp fuel cond st1 with
            | none => none
            | some (p, st2) =>
              match get_endpos st2 with
              | none => none
              | some ep =>
                some (Node.mk (.BinOp .Equal p (Node.new (.Number 0))) .Nil sp ep, st2)
          | some (false, _) => primary_exp fuel cond st
        else primary_exp fuel cond st

/-- `Parser::primary_exp`: parenthesized expression, literal, call or
access.  A failed sub-parse (`result = None` in the Rust) yields a zero
literal spanning the consumed region, with the parse continuing. -/
def primary_exp : Nat → Bool → PState → Option (Node × PState)
  | 0, _, _ => none
  | fuel + 1, cond, st =>
    match get_current_token st with
    | none => none
    | some t =>
      let sp := t.startpos
      let st0 : PState := { st with current := st.current + 1 }
      match
        (match t.sort with
         | .LeftParen =>
           match const_exp fuel cond st0 with
           | none => none
           | some (exp, st1) =>
             match type_judge st1 .RightParen with
             | none => none
             | some (true, st2) => some (some exp, st2)
             | some (false, _) => some (none, st1)
         | .IntNumber num => some (some (Node.new (.Number num)), st0)
         | .FloatNumber => some (some (Node.new .FloatNumber), st0)
         | .Identifier id =>
           match type_judge st0 .LeftParen with
           | none => none
           | some (true, st1) =>
             match type_judge st1 .RightParen with
             | none => none
             | some (false, _) =>
               match const_exp fuel cond st1 with
               | none => none
               | some (arg0, st2) =>
                 match call_args_loop fuel cond st2 with
                 | none => none
                 | some (args, st3) =>
                   match type_judge st3 .RightParen with
                   | none => none
                   | some (true, st4) =>
                     some (some (Node.new (.Call id (arg0 :: args) (Node.new (.Number 0)))),
                       st4)
                   | some (false, _) => some (none, st3)
             | some (true, st2) =>
               some (some (Node.new (.Call id [] (Node.new (.Number 0)))), st2)
           | some (false, _) =>
             match seek_array fuel false st0 with
             | none => none
             | some (idx, st1) =>
               some (some (Node.new (.Access id idx (Node.new (.Number 0)))), st1)
         | _ => some (none, { st0 with errors := st0.errors + 1 })
         : Option (Option Node × PState)) with
      | none => none
      | some (result, st') =>
        match get_endpos st' with
        | none => none
        | some ep =>
          match result with
          | some node => some (setBound node sp ep, st')
          | none => some (setBound (Node.new (.Number 0)) sp ep, st')

/-- The `while type_judge(Comma)` argument loop inside `primary_exp`'s call
branch. -/
def call_args_loop : Nat → Bool → PState → Option (List Node × PState)
  | 0, _, _ => none
  | fuel + 1, cond, st =>
    match type_judge st .Comma with
    | none => none
    | some (false, _) => some ([], st)
    | some (true, st1) =>
      match const_exp fuel cond st1 with
      | none => none
      | some (arg, st2) =>
        match call_args_loop fuel cond st2 with
        | none => none
        | some (args, st3) => some (arg :: args, st3)

/-- `Parser::init_list`: a brace-delimited, comma-separated, recursively
nested initializer list. -/
def init_list : Nat → PState → Option (List Node × PState)
  | 0, _ => none
  | fuel + 1, st =>
    match type_check st .LeftBrace with
    | none => none
    | some st1 => init_list_loop fuel true st1

/-- The element loop of `init_list`.  On a token that starts neither a
nested list nor an expression, `wrong_token` reports and nothing is
consumed, so the Rust loop spins forever: that run exhausts any fuel. -/
def init_list_loop : Nat → Bool → PState → Option (List Node × PState)
  | 0, _, _ => none
  | fuel + 1, first, st =>
    match type_judge st .RightBrace with
    | none => none
    | some (true, st1) => some ([], st1)
    | some (false, _) =>
      match (if first then some st else type_check st .Comma : Option PState) with
      | none => none
      | some st1 =>
        match get_startpos st1 with
        | none => none
        | some sp =>
          match get_current_token st1 with
          | none => none
          | some t =>
            match t.sort with
            | .LeftBrace =>
              match init_list fuel st1 with
              | none => none
              | some (inner, st2) =>
                match get_endpos st2 with
                | none => none
                | some ep =>
                  match init_list_loop fuel false st2 with
                  | none => none
                  | some (rest, st3) =>
                    some (setBound (Node.new (.InitList inner)) sp ep :: rest, st3)
            | .Identifier _ =>
              match add_exp fuel false st1 with
              | none => none
              | some (e, st2) =>
                match init_list_loop fuel false st2 with
                | none => none
                | some (rest, st3) => some (e :: rest, st3)
            | .IntNumber _ =>
              match add_exp fuel false st1 with
              | none => none
              | some (e, st2) =>
                match init_list_loop fuel false st2 with
                | none => none
                | some (rest, st3) => some (e :: rest, st3)
            | .LeftParen =>
              match add_exp fuel false st1 with
              | none => none
              | some (e, st2) =>
                match init_list_loop fuel false st2 with
                | none => none
                | some (rest, st3) => some (e :: rest, st3)
            | _ => init_list_loop fuel false { st1 with errors := st1.errors + 1 }

/-- `Parser::decl_stmt`: one shared base type, then a comma-separated list
of `(name, dims, initializer)` declarations up to `;`. -/
def decl_stmt : Nat → Scope → PState → Option (Node × PState)
  | 0, _, _ => none
  | fuel + 1, scope, st =>
    match get_startpos st with
    | none => none
    | some sp =>
      match get_current_token st with
      | none => none
      | some t =>
        let st0 : PState := { st with current := st.current + 1 }
        match
          (match t.sort with
           | .Const => (type_check st0 .Int).map (fun st1 => (BasicType.Const, st1))
           | .Int => some (BasicType.Int, st0)
           | .Float => some (BasicType.Float, st0)
           | _ => none    -- wrong_token, then .expect(...) panics on None
           : Option (BasicType × PState)) with
        | none => none
        | some (basic_type, st1) =>
          match decl_loop fuel scope basic_type true st1 with
          | none => none
          | some (decl_list, st2) =>
            match get_endpos st2 with
            | none => none
            | some ep => some (setBound (Node.new (.DeclStmt decl_list)) sp ep, st2)

/-- The `while !type_judge(Semicolon)` declaration loop of `decl_stmt`. -/
def decl_loop : Nat → Scope → BasicType → Bool → PState → Option (List Node × PState)
  | 0, _, _, _, _ => none
  | fuel + 1, scope, basic_type, first, st =>
    match type_judge st .Semicolon with
    | none => none
    | some (true, st1) => some ([], st1)
    | some (false, _) =>
      match (if first then some st else type_check st .Comma : Option PState) with
      | none => none
      | some st1 =>
        match get_startpos st1 with
        | none => none
        | some sp =>
          match get_identifier st1 with
          | none => none
          | some (name, st2) =>
            match seek_array fuel false st2 with
            | none => none
            | some (dims, st3) =>
              match type_judge st3 .Assign with
              | none => none
              | some (true, st4) =>
                match
                  (if dims.isNone then
                    (add_exp fuel false st4).map (fun r => ([r.1], r.2))
                  else init_list fuel st4 : Option (List Node × PState)) with
                | none => none
                | some (init, st5) =>
                  match get_endpos st5 with
                  | none => none
                  | some ep =>
                    match decl_loop fuel scope basic_type false st5 with
                    | none => none
                    | some (rest, st6) =>
                      some (setBound
                          (Node.new (.Decl basic_type name dims (some init) scope)) sp ep
                          :: rest, st6)
              | some (false, _) =>
                if basic_type = .Const then none
                  -- "assign in const declaration"; unreachable!()
                else
                  match get_endpos st3 with
                  | none => none
                  | some ep =>
                    match decl_loop fuel scope basic_type false st3 with
                    | none => none
                    | some (rest, st6) =>
                      some (setBound (Node.new (.Decl basic_type name dims none scope)) sp ep
                          :: rest, st6)
end

/-- The first loop of `semantics::semantic`: traverse exactly the top-level
`DeclStmt` nodes, in order. -/
def semanticPass1 (fuel : Nat) : List Node → Runtime → Option (List Node × Runtime × Nat)
  | [], ctx => some ([], ctx, 0)
  | n :: rest, ctx =>
    match n.node_type with
    | .DeclStmt _ =>
      match traverse fuel n ctx with
      | none => none
      | some (n', ctx1, e1) =>
        match semanticPass1 fuel rest ctx1 with
        | none => none
        | some (ns, ctx2, e2) => some (n' :: ns, ctx2, e1 + e2)
    | _ => semanticPass1 fuel rest ctx

/-- The second loop of `semantics::semantic`: traverse exactly the top-level
nodes that are not `DeclStmt`, in order. -/
def semanticPass2 (fuel : Nat) : List Node → Runtime → Option (List Node × Runtime × Nat)
  | [], ctx => some ([], ctx, 0)
  | n :: rest, ctx =>
    match n.node_type with
    | .DeclStmt _ => semanticPass2 fuel rest ctx
    | _ =>
      match traverse fuel n ctx with
      | none => none
      | some (n', ctx1, e1) =>
        match semanticPass2 fuel rest ctx1 with
        | none => none
        | some (ns, ctx2, e2) => some (n' :: ns, ctx2, e1 + e2)

/-- `semantics::semantic`: run the declaration pass, then the remaining
pass, on a fresh `Runtime`, concatenating the outputs.  (The Rust function
also stores the file path in a global used only by diagnostics.) -/
def semantic (fuel : Nat) (ast : List Node) : Option (List Node × Runtime × Nat) :=
  match semanticPass1 fuel ast Runtime.new with
  | none => none
  | some (ns1, ctx1, e1) =>
    match semanticPass2 fuel ast ctx1 with
    | none => none
    | some (ns2, ctx2, e2) => some (ns1 ++ ns2, ctx2, e1 + e2)

/-- In-order sequential annotation of a top-level node list (used to state
what order `semantic` processes and returns nodes in). -/
def traverseSeq (fuel : Nat) : List Node → Runtime → Option (List Node × Runtime × Nat)
  | [], ctx => some ([], ctx, 0)
  | n :: rest, ctx =>
    match traverse fuel n ctx with
    | none => none
    | some (n', ctx1, e1) =>
      match traverseSeq fuel rest ctx1 with
      | none => none
      | some (ns, ctx2, e2) => some (n' :: ns, ctx2, e1 + e2)

end Sysy

namespace Sysy

/-! ## Helper lemmas -/

lemma mem_of_mem_reverse {α : Type} {l : List α} {a : α} (h : a ∈ l.reverse) : a ∈ l :=
  List.mem_reverse.mp h

lemma findFrames_append_none (l1 l2 : List (List (String × Var))) (name : String)
    (h : ∀ g ∈ l1, mapFind g name = none) :
    findFrames (l1 ++ l2) name = findFrames l2 name := by
  induction l1 with
  | nil => rfl
  | cons f rest ih =>
    simp only [List.cons_append, findFrames]
    rw [h f (by simp)]
    exact ih (fun g hg => h g (by simp [hg]))

lemma findFrames_eq_none (l : List (List (String × Var))) (name : String)
    (h : ∀ g ∈ l, mapFind g name = none) : findFrames l name = none := by
  induction l with
  | nil => rfl
  | cons f rest ih =>
    simp only [findFrames]
    rw [h f (by simp)]
    exact ih (fun g hg => h g (by simp [hg]))

/-! ## C5 -/

/-- C5: symbol lookup searches the local frames innermost-to-outermost
(in `Vec` order: the last frame is the innermost, and `find` walks the
frames in reverse), returning the binding of the innermost frame that
contains the name, so an inner declaration shadows outer ones; when no
local frame contains the name the global table is consulted; when that
fails too the lookup fails (the source "handles" this case with
`unreachable!()`, i.e. a panic, modelled as `none`). -/
theorem C5_symbol_lookup :
    (∀ (rt : Runtime) (name : String) (pre post : List (List (String × Var)))
       (f : List (String × Var)) (v : Var),
       rt.locals = pre ++ f :: post →
       mapFind f name = some v →
       (∀ g ∈ post, mapFind g name = none) →
       rt.find name = some (v.basic_type, v.node)) ∧
    (∀ (rt : Runtime) (name : String) (v : Var),
       (∀ g ∈ rt.locals, mapFind g name = none) →
       mapFind rt.global name = some v →
       rt.find name = some (v.basic_type, v.node)) ∧
    (∀ (rt : Runtime) (name : String),
       (∀ g ∈ rt.locals, mapFind g name = none) →
       mapFind rt.global name = none →
       rt.find name = none) := by
  refine ⟨?_, ?_, ?_⟩
  · intro rt name pre post f v hl hf hpost
    unfold Runtime.find
    rw [hl]
    have hrev : (pre ++ f :: post).reverse = post.reverse ++ f :: pre.reverse := by simp
    rw [hrev,
      findFrames_append_none post.reverse _ name (fun g hg => hpost g (mem_of_mem_reverse hg))]
    simp [findFrames, hf]
  · intro rt name v hloc hg
    unfold Runtime.find
    rw [findFrames_eq_none rt.locals.reverse name
      (fun g hg => hloc g (mem_of_mem_reverse hg)), hg]
  · intro rt name hloc hg
    unfold Runtime.find
    rw [findFrames_eq_none rt.locals.reverse name
      (fun g hg => hloc g (mem_of_mem_reverse hg)), hg]

/-- Witness for C5 at a concrete context: two nested local frames both
binding `x` (innermost with type `Const`) over a global `x : Float`; the
lookup returns the innermost binding. -/
theorem C5_symbol_lookup_witness :
    (Runtime.mk [("x", ⟨.Float, Node.new .Nil⟩)]
        [[("x", ⟨.Int, Node.new .Nil⟩)], [("x", ⟨.Const, Node.new .Nil⟩)]]
        0 "" .Nil).find "x" = some (.Const, Node.new .Nil) := by
  exact C5_symbol_lookup.1 _ "x" [[("x", ⟨.Int, Node.new .Nil⟩)]] []
    [("x", ⟨.Const, Node.new .Nil⟩)] ⟨.Const, Node.new .Nil⟩ rfl rfl
    (fun g hg => absurd hg (List.not_mem_nil g))

/-! ## C6 -/

/-- C6: `break`/`continue` pass semantic analysis (no diagnostic) exactly
when the loop-nesting counter is nonzero; the `While` arm increments the
counter around the body and decrements it afterwards; concretely, a `break`
after `while (0) { }` is reported as an error while a `break` as sole
statement of a `while` body is accepted with no diagnostic. -/
theorem C6_break_continue_loop_counter :
    (∀ (fuel : Nat) (node : Node) (ctx : Runtime), node.node_type = .Break →
       traverse (fuel + 1) node ctx = some (node, ctx, if ctx.loop_count = 0 then 1 else 0)) ∧
    (∀ (fuel : Nat) (node : Node) (ctx : Runtime), node.node_type = .Continue →
       traverse (fuel + 1) node ctx = some (node, ctx, if ctx.loop_count = 0 then 1 else 0)) ∧
    (∀ (fuel e1 e2 : Nat) (ctx ctx1 ctx2 : Runtime) (cond body ncond nbody : Node)
       (bt0 : BasicType) (sp ep : Nat),
       traverse fuel cond ctx = some (ncond, ctx1, e1) →
       (ncond.basic_type = .Int ∨ ncond.basic_type = .Const) →
       traverse fuel body { ctx1 with loop_count := ctx1.loop_count + 1 } =
         some (nbody, ctx2, e2) →
       traverse (fuel + 1) (.mk (.While cond body) bt0 sp ep) ctx =
         some (.mk (.While ncond nbody) .Nil sp ep,
           { ctx2 with loop_count := ctx2.loop_count - 1 }, e1 + e2)) ∧
    ((traverse 10 (Node.mk (.Block
        [Node.mk (.While (Node.mk (.Number 0) .Nil 0 0) (Node.mk (.Block []) .Nil 0 0)) .Nil 0 0,
         Node.mk .Break .Nil 0 0]) .Nil 0 0) Runtime.new).map (fun r => r.2.2) = some 1) ∧
    ((traverse 10 (Node.mk (.While (Node.mk (.Number 0) .Nil 0 0)
        (Node.mk (.Block [Node.mk .Break .Nil 0 0]) .Nil 0 0)) .Nil 0 0) Runtime.new).map
        (fun r => r.2.2) = some 0) := by
  refine ⟨?_, ?_, ?_, rfl, rfl⟩
  · intro fuel node ctx h
    simp only [traverse, h]
  · intro fuel node ctx h
    simp only [traverse, h]
  · intro fuel e1 e2 ctx ctx1 ctx2 cond body ncond nbody bt0 sp ep h1 hty h2
    simp only [traverse, Node.node_type, h1, h2]
    rcases hty with h | h <;> simp [h, Node.startpos, Node.endpos]

/-- Witness for C6's universally quantified parts at a concrete instance:
`while (1) { break; }` analysed in a fresh context produces no diagnostic. -/
theorem C6_break_continue_loop_counter_witness :
    traverse 3 (Node.mk (.While (Node.mk (.Number 1) .Nil 0 0)
        (Node.mk .Break .Nil 0 0)) .Nil 0 0) Runtime.new =
      some (Node.mk (.While (Node.mk (.Number 1) .Const 0 0)
        (Node.mk .Break .Nil 0 0)) .Nil 0 0, Runtime.new, 0) := by
  have h := C6_break_continue_loop_counter.2.2.1 2 0 0 Runtime.new Runtime.new
    { Runtime.new with loop_count := 1 } (Node.mk (.Number 1) .Nil 0 0)
    (Node.mk .Break .Nil 0 0) (Node.mk (.Number 1) .Const 0 0) (Node.mk .Break .Nil 0 0)
    .Nil 0 0 rfl (Or.inr rfl)
    (C6_break_continue_loop_counter.1 1 (Node.mk .Break .Nil 0 0)
      { Runtime.new with loop_count := 1 } rfl)
  exact h

/-! ## C4 -/

/-- C4: for a binary-operation node whose operands both type-check as `Int`
or `Const`: when both are `Const` the node is folded to a `Number` literal
of type `Const` whose value is `eval` of the node (provided `eval` does not
panic); otherwise the rebuilt `BinOp` node is typed `Int` — mixing `Const`
with `Int` yields `Int`, never `Const`. -/
theorem C4_binop_typing :
    ∀ (fuel e1 e2 : Nat) (ctx ctx1 ctx2 : Runtime) (op : TokenType)
      (lhs rhs l' r' : Node) (bt0 : BasicType) (sp ep : Nat),
      traverse fuel lhs ctx = some (l', ctx1, e1) →
      traverse fuel rhs ctx1 = some (r', ctx2, e2) →
      (l'.basic_type = .Int ∨ l'.basic_type = .Const) →
      (r'.basic_type = .Int ∨ r'.basic_type = .Const) →
      ((l'.basic_type = .Const → r'.basic_type = .Const →
         ∀ (v : Int) (e3 : Nat),
           eval fuel (Node.mk (.BinOp op lhs rhs) bt0 sp ep) ctx2 = some (v, e3) →
           traverse (fuel + 1) (Node.mk (.BinOp op lhs rhs) bt0 sp ep) ctx =
             some (Node.mk (.Number v) .Const sp ep, ctx2, e1 + e2 + e3)) ∧
       (¬(l'.basic_type = .Const ∧ r'.basic_type = .Const) →
         traverse (fuel + 1) (Node.mk (.BinOp op lhs rhs) bt0 sp ep) ctx =
           some (Node.mk (.BinOp op l' r') .Int sp ep, ctx2, e1 + e2))) := by
  intro fuel e1 e2 ctx ctx1 ctx2 op lhs rhs l' r' bt0 sp ep h1 h2 hl hr
  constructor
  · intro hlc hrc v e3 hev
    simp only [traverse, Node.node_type, Node.startpos, Node.endpos, h1, h2, hev, hlc, hrc]
    simp [hlc, hrc]
  · intro hmix
    simp only [traverse, Node.node_type, Node.startpos, Node.endpos, h1, h2]
    rcases hl with h | h <;> rcases hr with h' | h' <;> simp [h, h'] at hmix ⊢

/-- Witness for C4 at concrete instances: `1 + x` for a global `int x`
mixes `Const` and `Int` and is typed `Int`; the hypotheses are discharged
at this input. -/
theorem C4_binop_typing_witness :
    traverse 11 (Node.mk (.BinOp .Plus (Node.mk (.Number 1) .Nil 0 0)
        (Node.mk (.Access "x" none (Node.new (.Number 0))) .Nil 0 0)) .Nil 5 9)
      (Runtime.mk [("x", ⟨.Int, Node.new (.Decl .Int "x" none none .Global)⟩)] [] 0 "" .Nil) =
      some (Node.mk (.BinOp .Plus
          (Node.mk (.Number 1) .Const 0 0)
          (Node.mk (.Access "x" none
            (Node.mk (.Decl .Int "x" none none .Global) .Int 0 0)) .Int 0 0)) .Int 5 9,
        Runtime.mk [("x", ⟨.Int, Node.new (.Decl .Int "x" none none .Global)⟩)] [] 0 "" .Nil,
        0) := by
  exact (C4_binop_typing 10 0 0
    (Runtime.mk [("x", ⟨.Int, Node.new (.Decl .Int "x" none none .Global)⟩)] [] 0 "" .Nil)
    (Runtime.mk [("x", ⟨.Int, Node.new (.Decl .Int "x" none none .Global)⟩)] [] 0 "" .Nil)
    (Runtime.mk [("x", ⟨.Int, Node.new (.Decl .Int "x" none none .Global)⟩)] [] 0 "" .Nil)
    .Plus
    (Node.mk (.Number 1) .Nil 0 0)
    (Node.mk (.Access "x" none (Node.new (.Number 0))) .Nil 0 0)
    (Node.mk (.Number 1) .Const 0 0)
    (Node.mk (.Access "x" none
      (Node.mk (.Decl .Int "x" none none .Global) .Int 0 0)) .Int 0 0)
    .Nil 5 9 rfl rfl (Or.inr rfl) (Or.inl rfl)).2 (by decide)

/-! ## C10 -/

lemma traverseSeq_append (fuel : Nat) (l1 l2 : List Node) (ctx : Runtime) :
    traverseSeq fuel (l1 ++ l2) ctx =
      match traverseSeq fuel l1 ctx with
      | none => none
      | some (ns, ctx1, e1) =>
        match traverseSeq fuel l2 ctx1 with
        | none => none
        | some (ns2, ctx2, e2) => some (ns ++ ns2, ctx2, e1 + e2) := by
  induction l1 generalizing ctx with
  | nil =>
    simp only [List.nil_append, traverseSeq]
    cases h : traverseSeq fuel l2 ctx with
    | none => rfl
    | some r => rcases r with ⟨ns2, ctx2, e2⟩; simp
  | cons n rest ih =>
    simp only [List.cons_append, traverseSeq, List.append_eq]
    cases h1 : traverse fuel n ctx with
    | none => rfl
    | some r =>
      rcases r with ⟨n1, ctx1, e1⟩
      dsimp only
      rw [ih ctx1]
      cases h2 : traverseSeq fuel rest ctx1 with
      | none => rfl
      | some r2 =>
        rcases r2 with ⟨ns, ctx2, e2⟩
        dsimp only
        cases h3 : traverseSeq fuel l2 ctx2 with
        | none => rfl
        | some r3 =>
          rcases r3 with ⟨ns3, ctx3, e3⟩
          simp [Nat.add_assoc]

lemma semanticPass1_eq_filter (fuel : Nat) (l : List Node) (ctx : Runtime) :
    semanticPass1 fuel l ctx = traverseSeq fuel (l.filter Node.isDeclStmtB) ctx := by
  induction l generalizing ctx with
  | nil => rfl
  | cons n rest ih =>
    rw [List.filter_cons]
    cases hnt : n.node_type <;>
      simp only [semanticPass1, hnt, Node.isDeclStmtB, if_true, if_false, traverseSeq,
        Bool.false_eq_true, reduceIte] <;>
      first
      | exact ih ctx
      | (cases h1 : traverse fuel n ctx with
         | none => rfl
         | some r =>
           rcases r with ⟨n1, ctx1, e1⟩
           dsimp only
           rw [ih ctx1]
           try rfl)

lemma semanticPass2_eq_filter (fuel : Nat) (l : List Node) (ctx : Runtime) :
    semanticPass2 fuel l ctx = traverseSeq fuel (l.filter (fun n => !n.isDeclStmtB)) ctx := by
  induction l generalizing ctx with
  | nil => rfl
  | cons n rest ih =>
    rw [List.filter_cons]
    cases hnt : n.node_type <;>
      simp only [semanticPass2, hnt, Node.isDeclStmtB, Bool.not_true, Bool.not_false,
        if_true, if_false, traverseSeq, Bool.false_eq_true, reduceIte] <;>
      first
      | exact ih ctx
      | (cases h1 : traverse fuel n ctx with
         | none => rfl
         | some r =>
           rcases r with ⟨n1, ctx1, e1⟩
           dsimp only
           rw [ih ctx1]
           try rfl)

/-- C10: the node sequence returned by `semantic` is the in-order
annotation of the reordered input list: first all top-level `DeclStmt`
nodes, in their original relative order, then all the other top-level
nodes (the function definitions), in their original relative order. -/
theorem C10_toplevel_order :
    ∀ (fuel : Nat) (ast : List Node),
      semantic fuel ast =
        traverseSeq fuel
          (ast.filter Node.isDeclStmtB ++ ast.filter (fun n => !n.isDeclStmtB))
          Runtime.new := by
  intro fuel ast
  rw [traverseSeq_append]
  simp only [semantic, semanticPass1_eq_filter, semanticPass2_eq_filter]

/-! ## C1 -/

lemma wrap32_eq_self {z : Int} (h1 : -2 ^ 31 ≤ z) (h2 : z < 2 ^ 31) : wrap32 z = z := by
  unfold wrap32
  have h3 : (0:Int) ≤ z + 2 ^ 31 := by omega
  have h4 : z + 2 ^ 31 < 2 ^ 32 := by omega
  rw [Int.emod_eq_of_lt h3 h4]
  omega

lemma one_le_int_prod {ds : List Int} (h : ∀ d ∈ ds, 1 ≤ d) : 1 ≤ ds.prod := by
  induction ds with
  | nil => simp
  | cons d rest ih =>
    rw [List.prod_cons]
    have hd : 1 ≤ d := h d (by simp)
    have hr : 1 ≤ rest.prod := ih (fun x hx => h x (by simp [hx]))
    nlinarith

lemma foldl_wrap_prod (ds : List Int) (acc : Int) (h1 : 1 ≤ acc)
    (h2 : ∀ d ∈ ds, 1 ≤ d) (h3 : acc * ds.prod < 2 ^ 31) :
    ds.foldl (fun m d => wrap32 (m * d)) acc = acc * ds.prod := by
  induction ds generalizing acc with
  | nil => simp
  | cons d rest ih =>
    rw [List.foldl_cons]
    have hd : 1 ≤ d := h2 d (by simp)
    have hr : 1 ≤ rest.prod := one_le_int_prod (fun x hx => h2 x (by simp [hx]))
    have hprod : acc * (d :: rest).prod = acc * d * rest.prod := by
      rw [List.prod_cons]; ring
    have hadpos : (0:Int) ≤ acc * d := by nlinarith
    have hbound : acc * d ≤ acc * d * rest.prod := by
      calc acc * d = acc * d * 1 := by ring
        _ ≤ acc * d * rest.prod := mul_le_mul_of_nonneg_left hr hadpos
    have hlt : acc * d < 2 ^ 31 := by
      have := h3; rw [hprod] at this; omega
    have hge : -2 ^ 31 ≤ acc * d := by nlinarith
    rw [wrap32_eq_self hge hlt]
    rw [ih (acc * d) (by nlinarith) (fun x hx => h2 x (by simp [hx]))
      (by rw [← hprod]; exact h3)]
    rw [hprod]

lemma dimsProd_eq_foldl (dimNodes : List Node) (ds : List Int) (acc : Int)
    (h : dimNodes.map Node.node_type = ds.map NodeType.Number) :
    dimNodes.foldl
      (fun m dn =>
        match dn.node_type with
        | .Number d => wrap32 (m * d)
        | _ => m) acc = ds.foldl (fun m d => wrap32 (m * d)) acc := by
  induction dimNodes generalizing ds acc with
  | nil =>
    cases ds with
    | nil => rfl
    | cons d rest => simp at h
  | cons dn rest ih =>
    cases ds with
    | nil => simp at h
    | cons d ds' =>
      simp only [List.map_cons, List.cons.injEq] at h
      rw [List.foldl_cons, List.foldl_cons, h.1]
      exact ih ds' _ h.2

lemma usizeOfI32_toNat {z : Int} (h1 : 0 ≤ z) (h2 : z < 2 ^ 64) : usizeOfI32 z = z.toNat := by
  unfold usizeOfI32
  rw [Int.emod_eq_of_lt h1 h2]

/-- C1: for an array declaration whose dimension nodes resolved to the
positive values `ds`, a run of `expand_inits` from level 0 that reports no
diagnostic returns a flat list of exactly `ds.prod` elements (whatever the
nesting of the initializer and whether the elements are constant-evaluated
or merely traversed); a nested brace-list recurses one dimension deeper, a
too-long flat list reports "Length of initializer exceeded", and a shorter
one is zero-padded.  Concretely, `int a[2][3] = {{1,2,3},{4,5,6}};` at
global scope resolves `a` to `IntArray [2,3]` with the six constants
`1..6` in row-major order, `{{1,2}}` gives six elements ending in four
zeros, and a flat list of three against dimension `[2]` reports one
length-exceeded diagnostic. -/
theorem C1_expand_inits :
    (∀ (fuel : Nat) (need_eval : Bool) (ds : List Int) (dimNodes inits vals : List Node)
       (ctx ctx1 : Runtime),
       dimNodes.map Node.node_type = ds.map NodeType.Number →
       (∀ d ∈ ds, 1 ≤ d) →
       ds.prod < 2 ^ 31 →
       expand_inits (fuel + 1) dimNodes inits need_eval ctx 0 = some (vals, ctx1, 0) →
       vals.length = ds.prod.toNat) ∧
    ((traverse 30 (Node.mk (.Decl .Int "a"
        (some [Node.mk (.Number 2) .Nil 0 0, Node.mk (.Number 3) .Nil 0 0])
        (some [Node.mk (.InitList [Node.mk (.Number 1) .Nil 0 0,
            Node.mk (.Number 2) .Nil 0 0, Node.mk (.Number 3) .Nil 0 0]) .Nil 0 0,
          Node.mk (.InitList [Node.mk (.Number 4) .Nil 0 0,
            Node.mk (.Number 5) .Nil 0 0, Node.mk (.Number 6) .Nil 0 0]) .Nil 0 0])
        .Global) .Nil 0 0) Runtime.new).map (fun r =>
          (match r.1.node_type with
           | .Decl bt _ _ inits _ =>
             some (bt, (inits.getD []).map (fun n => (n.node_type, n.basic_type)))
           | _ => none, r.2.2)) =
      some (some (.IntArray [2, 3],
        [(.Number 1, .Const), (.Number 2, .Const), (.Number 3, .Const),
         (.Number 4, .Const), (.Number 5, .Const), (.Number 6, .Const)]), 0)) ∧
    ((expand_inits 20 [Node.mk (.Number 2) .Const 0 0, Node.mk (.Number 3) .Const 0 0]
        [Node.mk (.InitList [Node.mk (.Number 1) .Nil 0 0,
          Node.mk (.Number 2) .Nil 0 0]) .Nil 0 0]
        true Runtime.new 0).map (fun r =>
          (r.1.map (fun n => (n.node_type, n.basic_type)), r.2.2)) =
      some ([(.Number 1, .Const), (.Number 2, .Const), (.Number 0, .Const),
        (.Number 0, .Const), (.Number 0, .Const), (.Number 0, .Const)], 0)) ∧
    ((expand_inits 20 [Node.mk (.Number 2) .Const 0 0]
        [Node.mk (.Number 1) .Nil 0 0, Node.mk (.Number 2) .Nil 0 0,
         Node.mk (.Number 3) .Nil 0 0]
        true Runtime.new 0).map (fun r => (r.1.length, r.2.2)) = some (3, 1)) := by
  refine ⟨?_, rfl, rfl, rfl⟩
  intro fuel need_eval ds dimNodes inits vals ctx ctx1 hmap hpos hlt h
  have hprodpos : (1:Int) ≤ ds.prod := one_le_int_prod hpos
  have hmax : dimsProd dimNodes = ds.prod := by
    unfold dimsProd
    rw [dimsProd_eq_foldl dimNodes ds 1 hmap]
    rw [foldl_wrap_prod ds 1 le_rfl hpos (by omega)]
    omega
  simp only [expand_inits] at h
  split at h
  next heq =>
    -- the `if level = dims.length then … else some 0` produced `none`: impossible
    exact absurd h (by simp)
  next eDim heq =>
    rw [if_pos (Nat.zero_le _)] at h
    rw [List.drop_zero, hmax] at h
    have husize : usizeOfI32 ds.prod = ds.prod.toNat :=
      usizeOfI32_toNat (by omega) (by omega)
    rw [husize] at h
    -- the value of eDim: 0 unless the dimension list is empty
    split at h
    · exact absurd h (by simp)
    next expanded ctxm eLoop heq2 =>
      split at h
      · -- length exceeded: one more diagnostic, total cannot be 0
        split at h
        · exact absurd h (by simp)
        · exact absurd (congrArg (fun p : Option (List Node × Runtime × Nat) =>
            p.map (fun q => q.2.2)) h) (by simp)
      next hle =>
        rw [Option.some.injEq] at h
        have hv := congrArg (fun p => p.1) h
        simp only at hv
        rw [← hv]
        simp only [List.length_append, List.length_replicate]
        omega

/-- Witness for C1: the general length property applied to the concrete
expansion of `{{1,2,3},{4,5,6}}` against dimensions `[2,3]`. -/
theorem C1_expand_inits_witness :
    ([Node.mk (.Number 1) .Const 0 0, Node.mk (.Number 2) .Const 0 0,
      Node.mk (.Number 3) .Const 0 0, Node.mk (.Number 4) .Const 0 0,
      Node.mk (.Number 5) .Const 0 0, Node.mk (.Number 6) .Const 0 0] : List Node).length
      = (([2, 3] : List Int).prod).toNat := by
  exact C1_expand_inits.1 19 true [2, 3]
    [Node.mk (.Number 2) .Const 0 0, Node.mk (.Number 3) .Const 0 0]
    [Node.mk (.InitList [Node.mk (.Number 1) .Nil 0 0,
        Node.mk (.Number 2) .Nil 0 0, Node.mk (.Number 3) .Nil 0 0]) .Nil 0 0,
     Node.mk (.InitList [Node.mk (.Number 4) .Nil 0 0,
        Node.mk (.Number 5) .Nil 0 0, Node.mk (.Number 6) .Nil 0 0]) .Nil 0 0]
    [Node.mk (.Number 1) .Const 0 0, Node.mk (.Number 2) .Const 0 0,
     Node.mk (.Number 3) .Const 0 0, Node.mk (.Number 4) .Const 0 0,
     Node.mk (.Number 5) .Const 0 0, Node.mk (.Number 6) .Const 0 0]
    Runtime.new Runtime.new rfl (by decide) (by decide) rfl

/-! ## C7 -/

/-- C7 counterexample: on the source `int a b ;`, token 2 is the identifier
`b` where `type_check` requires a comma; `type_check` reports the mismatch
(one diagnostic) and advances the cursor instead of halting, and the
surrounding `decl_stmt` parse continues to completion: it consumes all four
tokens and returns a `DeclStmt` with two declarations and two reported
syntax errors.  This refutes "reports a syntax error immediately and halts
the parse; parsing never continues past a failed expect". -/
theorem C7_expect_counterexample :
    (((tokenize "int a b ;").getD []).get? 2 |>.map Token.sort) = some (.Identifier "b") ∧
    ((type_check ⟨(tokenize "int a b ;").getD [], 2, 0⟩ .Comma).map
        (fun st => (st.errors, st.current)) = some (1, 3)) ∧
    ((tokenize "int a b ;").map (fun ts =>
        (decl_stmt 50 .Global ⟨ts, 0, 0⟩).map (fun r =>
          (r.2.errors, r.2.current,
           match r.1.node_type with
           | .DeclStmt ds => ds.length
           | _ => 0)))
      = some (some (2, 4, 2))) :=
  ⟨rfl, rfl, rfl⟩

/-- C7 as amended: when `type_check` (the parser's `expect`) meets a token
whose kind differs from the required kind, it reports a syntax error
immediately (`wrong_token` prints; its `panic!` is commented out) and then
advances the cursor by one, and parsing continues; on a matching token it
advances without a report; it panics only when the cursor is already past
the end of the token vector. -/
theorem C7_expect_behavior :
    (∀ (st : PState) (sort : TokenType) (t : Token),
       get_current_token st = some t → t.sort ≠ sort →
       type_check st sort =
         some { st with current := st.current + 1, errors := st.errors + 1 }) ∧
    (∀ (st : PState) (sort : TokenType) (t : Token),
       get_current_token st = some t → t.sort = sort →
       type_check st sort = some { st with current := st.current + 1 }) ∧
    (∀ (st : PState) (sort : TokenType),
       get_current_token st = none → type_check st sort = none) := by
  refine ⟨?_, ?_, ?_⟩
  · intro st sort t h hneq
    simp only [type_check, h, if_pos hneq]
  · intro st sort t h heq
    simp only [type_check, h, heq]
    simp
  · intro st sort h
    simp only [type_check, h]

/-- Witness for C7's amended statement at a concrete state: expecting a
comma while looking at a semicolon reports one error and advances. -/
theorem C7_expect_behavior_witness :
    type_check ⟨[⟨.Semicolon, 1, 0, 1⟩], 0, 0⟩ .Comma = some ⟨[⟨.Semicolon, 1, 0, 1⟩], 1, 1⟩ :=
  C7_expect_behavior.1 ⟨[⟨.Semicolon, 1, 0, 1⟩], 0, 0⟩ .Comma ⟨.Semicolon, 1, 0, 1⟩ rfl
    (by decide)

/-! ## C2 -/

lemma drop_cons_get? {cs : List Char} {c : Nat} {x : Char} {r : List Char}
    (h : cs.drop c = x :: r) : cs.get? c = some x ∧ cs.drop (c + 1) = r := by
  constructor
  · have := List.get?_drop cs c 0
    rw [h] at this
    simpa using this.symm
  · have h2 : cs.drop (c + 1) = (cs.drop c).drop 1 := by rw [List.drop_drop]
    rw [h2, h]
    rfl

lemma hornerFrom_nonneg (base : Nat) (acc : Int) (vs : List Nat) (h : 0 ≤ acc) :
    0 ≤ hornerFrom base acc vs := by
  induction vs generalizing acc with
  | nil => exact h
  | cons v rest ih =>
    rw [hornerFrom, List.foldl_cons]
    exact ih _ (by positivity)

lemma hornerFrom_ge (base : Nat) (acc : Int) (vs : List Nat) (hb : 1 ≤ base) (h : 0 ≤ acc) :
    acc ≤ hornerFrom base acc vs := by
  induction vs generalizing acc with
  | nil => exact le_rfl
  | cons v rest ih =>
    rw [hornerFrom, List.foldl_cons]
    have h1 : acc ≤ acc * (base : Int) + (v : Int) := by
      have hb' : (1 : Int) ≤ (base : Int) := by exact_mod_cast hb
      nlinarith [Int.natCast_nonneg v]
    exact le_trans h1 (ih _ (by positivity))

lemma parse_number_digits_horner (base : Nat) :
    ∀ (chs rest : List Char) (vs : List Nat) (acc : Int) (len : Nat),
      1 ≤ base →
      chs.map (fun ch => charToDigit ch base) = vs.map some →
      (∀ ch, rest.head? = some ch → charToDigit ch base = none) →
      0 ≤ acc →
      hornerFrom base acc vs < 2 ^ 31 →
      parse_number_digits base (chs ++ rest) acc len =
        (hornerFrom base acc vs, len + chs.length) := by
  intro chs
  induction chs with
  | nil =>
    intro rest vs acc len hb hmap hstop hacc hbound
    have hvs : vs = [] := by
      cases vs with
      | nil => rfl
      | cons v r => simp at hmap
    subst hvs
    cases rest with
    | nil => simp [parse_number_digits, hornerFrom]
    | cons ch r =>
      simp only [List.nil_append, parse_number_digits, hstop ch rfl, hornerFrom,
        List.foldl_nil, List.length_nil, Nat.add_zero]
  | cons ch chs' ih =>
    intro rest vs acc len hb hmap hstop hacc hbound
    cases vs with
    | nil => simp at hmap
    | cons v vs' =>
      simp only [List.map_cons, List.cons.injEq] at hmap
      have hstep : hornerFrom base acc (v :: vs') =
          hornerFrom base (acc * (base : Int) + (v : Int)) vs' := by
        rw [hornerFrom, List.foldl_cons]; rfl
      have hacc' : (0:Int) ≤ acc * (base : Int) + (v : Int) := by positivity
      have hlt : acc * (base : Int) + (v : Int) < 2 ^ 31 := by
        have := hornerFrom_ge base (acc * (base : Int) + (v : Int)) vs' hb hacc'
        rw [hstep] at hbound
        omega
      simp only [List.cons_append, parse_number_digits, hmap.1, List.append_eq]
      rw [wrap32_eq_self (by omega) hlt]
      rw [ih rest vs' _ (len + 1) hb hmap.2 hstop hacc' (hstep ▸ hbound)]
      rw [hstep]
      simp [Nat.add_comm, Nat.add_assoc, Nat.add_left_comm]

/-- C2 counterexample: the literal `3.25` does not lex to a single numeric
token of value `3.25`.  The active lexer has no float scanning: it produces
`IntNumber 3`, reports `.` as an invalid character (raising the panic
flag), then produces `IntNumber 25`, and `tokenize` panics. -/
theorem C2_number_counterexample :
    ((scanAll "3.25".toList).map (fun r => (r.1.map Token.sort, r.2)) =
      some ([.IntNumber 3, .IntNumber 25], true)) ∧
    tokenize "3.25" = none :=
  ⟨rfl, rfl⟩

/-- C2 as amended: every valid *integer* literal decodes to its
mathematical value.  The digit loop of `parse_number` computes the Horner
value of the maximal digit run (exactly, whenever that value fits in
`i32`); at the scan level a `0x`/`0X` literal yields one `IntNumber` token
of that base-16 value; and concretely `"0x1A"` lexes to `IntNumber 26`
and `"017"` (base 8 after a leading zero) to `IntNumber 15`.  There is no
float scanning: a `.` is an invalid character (see the counterexample). -/
theorem C2_number_decoding :
    (∀ (base : Nat) (chs rest : List Char) (vs : List Nat) (acc : Int) (len : Nat),
       1 ≤ base →
       chs.map (fun ch => charToDigit ch base) = vs.map some →
       (∀ ch, rest.head? = some ch → charToDigit ch base = none) →
       0 ≤ acc →
       hornerFrom base acc vs < 2 ^ 31 →
       parse_number_digits base (chs ++ rest) acc len =
         (hornerFrom base acc vs, len + chs.length)) ∧
    (∀ (cs : List Char) (f c ln : Nat) (ls : List Nat) (chs rest : List Char)
       (vs : List Nat) (toks : List Token) (p : Bool),
       cs.drop c = '0' :: 'x' :: (chs ++ rest) →
       chs.map (fun ch => charToDigit ch 16) = vs.map some →
       (∀ ch, rest.head? = some ch → charToDigit ch 16 = none) →
       hornerInt 16 vs < 2 ^ 31 →
       scan cs (f + 1) c ln ls = some (toks, p) →
       toks.head? = some ⟨.IntNumber (hornerInt 16 vs), ln, c + 2, c + 2 + chs.length⟩) ∧
    ((tokenize "0x1A").map (List.map Token.sort) = some [.IntNumber 26]) ∧
    ((tokenize "017").map (List.map Token.sort) = some [.IntNumber 15]) := by
  refine ⟨fun base chs rest vs acc len => parse_number_digits_horner base chs rest vs acc len,
    ?_, rfl, rfl⟩
  intro cs f c ln ls chs rest vs toks p hdrop hmap hstop hbound h
  obtain ⟨hc0, hdrop1⟩ := drop_cons_get? hdrop
  obtain ⟨hc1, hdrop2⟩ := drop_cons_get? hdrop1
  have hdrop2' : cs.drop (c + 2) = chs ++ rest := hdrop2
  have hbound' : hornerFrom 16 0 vs < 2 ^ 31 := hbound
  rw [scan, hc0] at h
  dsimp only at h
  rw [if_neg (by decide : ¬('0' = ' ' ∨ '0' = '\t'))] at h
  rw [if_neg (by decide : ¬ '0' = '\n')] at h
  rw [if_pos (by decide : isAsciiDigitC '0' = true)] at h
  rw [if_pos (show some '0' = some '0' ∧
      (cs.get? (c + 1) = some 'x' ∨ cs.get? (c + 1) = some 'X') from
      ⟨rfl, Or.inl hc1⟩)] at h
  rw [hdrop2'] at h
  rw [parse_number_digits_horner 16 chs rest vs 0 0 (by omega) hmap hstop le_rfl hbound'] at h
  dsimp only at h
  simp only [Nat.zero_add] at h
  cases hs : scan cs f (c + 2 + chs.length) ln ls with
  | none => rw [hs] at h; simp at h
  | some r =>
    rw [hs] at h
    simp only [Option.map_some', Option.some.injEq, Prod.mk.injEq] at h
    rw [← h.1]
    rfl

/-- Witness for C2 at a concrete input: the octal literal `017` followed by
a semicolon decodes to 15 after consuming exactly three characters. -/
theorem C2_number_decoding_witness :
    parse_number_digits 8 (['0', '1', '7'] ++ [';']) 0 0 =
      (hornerFrom 8 0 [0, 1, 7], 0 + 3) :=
  C2_number_decoding.1 8 ['0', '1', '7'] [';'] [0, 1, 7] 0 0 (by decide) (by decide)
    (by intro ch hch; cases hch; rfl) (by decide) (by decide)

/-! ## C8 -/

lemma keywordTable_not_wrongformat {s : String} {k : TokenType}
    (h : keywordTable s = some k) : k.isWrongFormatB = false := by
  unfold keywordTable at h
  split_ifs at h
  all_goals first
    | exact Option.noConfusion h
    | (injection h with h; subst h; rfl)

lemma doubleSignTable_not_wrongformat {s : String} {k : TokenType}
    (h : doubleSignTable s = some k) : k.isWrongFormatB = false := by
  unfold doubleSignTable at h
  split_ifs at h
  all_goals first
    | exact Option.noConfusion h
    | (injection h with h; subst h; rfl)

lemma single_sign_not_wrongformat {ch : Char} {k : TokenType}
    (h : single_sign ch = some k) : k.isWrongFormatB = false := by
  unfold single_sign at h
  split at h
  all_goals first
    | exact Option.noConfusion h
    | (injection h with h; subst h; rfl)

section ScanNoWF

variable {cs : List Char} {f : Nat}

private lemma scan_cons_case {c' ln' : Nat} {ls' : List Nat} {toks : List Token} {p : Bool}
    (t0 : Token) (hsort : t0.sort.isWrongFormatB = false)
    (ih : ∀ (c ln : Nat) (ls : List Nat) (toks : List Token) (p : Bool),
      scan cs f c ln ls = some (toks, p) → ∀ t ∈ toks, t.sort.isWrongFormatB = false)
    (h : (scan cs f c' ln' ls').map (fun r => (t0 :: r.1, r.2)) = some (toks, p)) :
    ∀ t ∈ toks, t.sort.isWrongFormatB = false := by
  cases hs : scan cs f c' ln' ls' with
  | none => rw [hs] at h; exact absurd h (by simp)
  | some r =>
    rw [hs] at h
    simp only [Option.map_some', Option.some.injEq, Prod.mk.injEq] at h
    intro t ht
    rw [← h.1] at ht
    rcases List.mem_cons.mp ht with rfl | hm
    · exact hsort
    · exact ih c' ln' ls' r.1 r.2 (by rw [hs]) t hm

private lemma scan_tail_case {c' ln' : Nat} {ls' : List Nat} {toks : List Token} {p : Bool}
    (ih : ∀ (c ln : Nat) (ls : List Nat) (toks : List Token) (p : Bool),
      scan cs f c ln ls = some (toks, p) → ∀ t ∈ toks, t.sort.isWrongFormatB = false)
    (h : (scan cs f c' ln' ls').map (fun r => (r.1, true)) = some (toks, p)) :
    ∀ t ∈ toks, t.sort.isWrongFormatB = false := by
  cases hs : scan cs f c' ln' ls' with
  | none => rw [hs] at h; exact absurd h (by simp)
  | some r =>
    rw [hs] at h
    simp only [Option.map_some', Option.some.injEq, Prod.mk.injEq] at h
    intro t ht
    rw [← h.1] at ht
    exact ih c' ln' ls' r.1 r.2 (by rw [hs]) t ht

end ScanNoWF

lemma scan_no_wrongformat (cs : List Char) :
    ∀ (f c ln : Nat) (ls : List Nat) (toks : List Token) (p : Bool),
      scan cs f c ln ls = some (toks, p) → ∀ t ∈ toks, t.sort.isWrongFormatB = false := by
  intro f
  induction f with
  | zero =>
    intro c ln ls toks p h
    exact absurd h (by simp [scan])
  | succ f ih =>
    intro c ln ls toks p h
    rw [scan] at h
    cases hc : cs.get? c with
    | none =>
      rw [hc] at h
      simp only [Option.some.injEq, Prod.mk.injEq] at h
      intro t ht
      rw [← h.1] at ht
      exact absurd ht (List.not_mem_nil t)
    | some ch =>
      rw [hc] at h
      dsimp only at h
      by_cases h1 : ch = ' ' ∨ ch = '\t'
      · rw [if_pos h1] at h; exact ih _ _ _ _ _ h
      rw [if_neg h1] at h
      by_cases h2 : ch = '\n'
      · rw [if_pos h2] at h; exact ih _ _ _ _ _ h
      rw [if_neg h2] at h
      by_cases h3 : isAsciiDigitC ch = true
      · rw [if_pos h3] at h
        by_cases h4 : some ch = some '0' ∧
            (cs.get? (c + 1) = some 'x' ∨ cs.get? (c + 1) = some 'X')
        · rw [if_pos h4] at h
          refine scan_cons_case _ ?_ ih h; rfl
        · rw [if_neg h4] at h
          by_cases h5 : some ch = some '0' ∧ (cs.get? (c + 1)).isSome = true
          · rw [if_pos h5] at h
            refine scan_cons_case _ ?_ ih h; rfl
          · rw [if_neg h5] at h
            refine scan_cons_case _ ?_ ih h; rfl
      rw [if_neg h3] at h
      by_cases h6 : isAsciiAlphaC ch = true
      · rw [if_pos h6] at h
        cases hk : keywordTable
            (String.mk (List.take (1 + count_ident_chars (List.drop (c + 1) cs))
              (List.drop c cs))) with
        | some k =>
          rw [hk] at h
          dsimp only at h
          exact scan_cons_case _ (keywordTable_not_wrongformat hk) ih h
        | none =>
          rw [hk] at h
          dsimp only at h
          refine scan_cons_case _ ?_ ih h; rfl
      rw [if_neg h6] at h
      by_cases h7 : ch = '/'
      · rw [if_pos h7] at h
        split at h
        · -- line comment
          split at h
          · exact absurd h (by simp)
          · exact ih _ _ _ _ _ h
        · -- block comment
          rcases hb : block_comment cs (c + 2) ln ls with ⟨c2, ln2, ls2, ok⟩
          rw [hb] at h
          dsimp only at h
          cases ok with
          | true => rw [if_pos rfl] at h; exact ih _ _ _ _ _ h
          | false =>
            rw [if_neg (by simp)] at h
            exact scan_tail_case ih h
        · -- divide token
          refine scan_cons_case _ ?_ ih h; rfl
      · rw [if_neg h7] at h
        split at h
        · -- a two-character window exists
          split at h
          · rename_i sort hds
            exact scan_cons_case _ (doubleSignTable_not_wrongformat hds) ih h
          · split at h
            · rename_i op hss
              exact scan_cons_case _ (single_sign_not_wrongformat hss) ih h
            · exact scan_tail_case ih h
        · split at h
          · rename_i op hss
            exact scan_cons_case _ (single_sign_not_wrongformat hss) ih h
          · exact scan_tail_case ih h

/-- C8 counterexample: on `0x1G` (a malformed hexadecimal literal), the
lexer does not mark the literal malformed and does not emit any
malformed-literal token carrying a diagnostic: the numeric token simply
ends at the last valid digit (`IntNumber 1`, spanning only the `1`) and the
remaining alphanumeric `G` is scanned as a fresh identifier token; no error
is recorded (`is_panicked` stays false). -/
theorem C8_malformed_counterexample :
    ((scanAll "0x1G".toList).map (fun r => (r.1.map Token.sort, r.2)) =
      some ([.IntNumber 1, .Identifier "G"], false)) ∧
    ((tokenize "0x1G").map (List.map (fun t => (t.sort, t.startpos, t.endpos))) =
      some [(.IntNumber 1, 2, 3), (.Identifier "G", 3, 4)]) :=
  ⟨rfl, rfl⟩

/-- C8 as amended: during base-8/16 scanning an alphanumeric character that
is not a valid digit of the base simply terminates the digit run — the
token keeps the digits read so far, the remaining characters are scanned as
fresh tokens, and the scanner never emits a `WrongFormat` token on any
input whatsoever (the variant exists in `TokenType` but no lexer path
constructs it); concretely `019` lexes as `IntNumber 1` (octal `01`)
followed by `IntNumber 9`, without any error flag. -/
theorem C8_malformed_handling :
    (∀ (cs : List Char) (f c ln : Nat) (ls : List Nat) (toks : List Token) (p : Bool),
       scan cs f c ln ls = some (toks, p) → ∀ t ∈ toks, t.sort.isWrongFormatB = false) ∧
    ((scanAll "019".toList).map
        (fun r => (r.1.map (fun t => (t.sort, t.startpos, t.endpos)), r.2)) =
      some ([(.IntNumber 1, 0, 2), (.IntNumber 9, 2, 3)], false)) :=
  ⟨scan_no_wrongformat, rfl⟩

/-- Witness for C8 at a concrete input: the first token scanned from
`0x1G` is not a malformed-literal token. -/
theorem C8_malformed_handling_witness :
    (Token.mk (.IntNumber 1) 1 2 3).sort.isWrongFormatB = false :=
  C8_malformed_handling.1 "0x1G".toList 5 0 1 [0]
    [⟨.IntNumber 1, 1, 2, 3⟩, ⟨.Identifier "G", 1, 3, 4⟩] false rfl
    ⟨.IntNumber 1, 1, 2, 3⟩ (by simp)

/-! ## C9 -/

lemma get?_some_lt {cs : List Char} {c : Nat} {x : Char} (h : cs.get? c = some x) :
    c < cs.length :=
  (List.get?_eq_some.mp h).1

lemma get?_drop_cons {cs : List Char} {c : Nat} {x : Char} (h : cs.get? c = some x) :
    cs.drop c = x :: cs.drop (c + 1) := by
  obtain ⟨hlt, hget⟩ := List.get?_eq_some.mp h
  rw [List.drop_eq_get_cons hlt, hget]

lemma charToDigit10_isSome {ch : Char} (h : isAsciiDigitC ch = true) :
    (charToDigit ch 10).isSome := by
  simp only [isAsciiDigitC, Bool.and_eq_true, decide_eq_true_eq] at h
  obtain ⟨h1, h2⟩ := h
  have g1 : '0'.toNat ≤ ch.toNat := h1
  have g2 : ch.toNat ≤ '9'.toNat := h2
  have e0 : '0'.toNat = 48 := rfl
  have e9 : '9'.toNat = 57 := rfl
  unfold charToDigit
  rw [if_pos ⟨h1, h2⟩]
  dsimp only
  rw [if_pos (by omega)]
  rfl

lemma parse_number_digits_len_ge (base : Nat) :
    ∀ (s : List Char) (acc : Int) (len : Nat), len ≤ (parse_number_digits base s acc len).2 := by
  intro s
  induction s with
  | nil => intro acc len; exact le_rfl
  | cons ch rest ih =>
    intro acc len
    rw [parse_number_digits]
    cases charToDigit ch base with
    | none => exact le_rfl
    | some v => exact le_trans (Nat.le_succ len) (ih _ (len + 1))

lemma parse_number_digits_len_pos {base : Nat} {ch : Char} {s : List Char} {acc : Int}
    (h : (charToDigit ch base).isSome) :
    1 ≤ (parse_number_digits base (ch :: s) acc 0).2 := by
  rw [parse_number_digits]
  cases hd : charToDigit ch base with
  | none => rw [hd] at h; exact absurd h (by simp)
  | some v => exact le_trans (by omega) (parse_number_digits_len_ge base s _ 1)

lemma line_comment_from_isSome {s : List Char} (h : '\n' ∈ s) :
    ∀ c : Nat, (line_comment_from s c).isSome := by
  induction s with
  | nil => exact absurd h (List.not_mem_nil _)
  | cons ch rest ih =>
    intro c
    rw [line_comment_from]
    by_cases hch : ch = '\n'
    · rw [if_pos hch]; rfl
    · rw [if_neg hch]
      exact ih (List.mem_of_ne_of_mem (fun hn => hch hn.symm) h) (c + 1)

lemma line_comment_from_spec {s : List Char} :
    ∀ {c j : Nat}, line_comment_from s c = some j →
      ∃ k, j = c + k ∧ s.get? k = some '\n' := by
  induction s with
  | nil => intro c j h; exact absurd h (by simp [line_comment_from])
  | cons ch rest ih =>
    intro c j h
    rw [line_comment_from] at h
    by_cases hch : ch = '\n'
    · rw [if_pos hch] at h
      injection h with h
      exact ⟨0, by omega, by rw [hch]; rfl⟩
    · rw [if_neg hch] at h
      obtain ⟨k, hk1, hk2⟩ := ih h
      exact ⟨k + 1, by omega, hk2⟩

lemma block_comment_from_gt :
    ∀ (s : List Char) (c ln : Nat) (ls : List Nat), c < (block_comment_from s c ln ls).1 := by
  intro s
  induction s with
  | nil => intro c ln ls; simp [block_comment_from]
  | cons ch rest ih =>
    intro c ln ls
    rw [block_comment_from]
    by_cases h1 : ch = '*' ∧ rest.head? = some '/'
    · rw [if_pos h1]; omega
    · rw [if_neg h1]
      by_cases h2 : ch = '\n'
      · rw [if_pos h2]
        exact lt_trans (by omega) (ih (c + 1) (ln + 1) (ls ++ [c + 1]))
      · rw [if_neg h2]
        exact lt_trans (by omega) (ih (c + 1) ln ls)

lemma scan_total (cs : List Char) (H : lineCommentsClosed cs) :
    ∀ (f c ln : Nat) (ls : List Nat), cs.length - c < f → (scan cs f c ln ls).isSome := by
  intro f
  induction f with
  | zero => intro c ln ls hf; omega
  | succ f ih =>
    intro c ln ls hf
    rw [scan]
    cases hc : cs.get? c with
    | none => rfl
    | some ch =>
      have hclen : c < cs.length := get?_some_lt hc
      dsimp only
      by_cases h1 : ch = ' ' ∨ ch = '\t'
      · rw [if_pos h1]; exact ih (c + 1) ln ls (by omega)
      rw [if_neg h1]
      by_cases h2 : ch = '\n'
      · rw [if_pos h2]; exact ih (c + 1) (ln + 1) (ls ++ [c + 1]) (by omega)
      rw [if_neg h2]
      by_cases h3 : isAsciiDigitC ch = true
      · rw [if_pos h3]
        by_cases h4 : some ch = some '0' ∧
            (cs.get? (c + 1) = some 'x' ∨ cs.get? (c + 1) = some 'X')
        · rw [if_pos h4]
          rw [Option.isSome_map']
          exact ih (c + 2 + (parse_number_digits 16 (cs.drop (c + 2)) 0 0).2) ln ls (by omega)
        · rw [if_neg h4]
          by_cases h5 : some ch = some '0' ∧ (cs.get? (c + 1)).isSome = true
          · rw [if_pos h5]
            rw [Option.isSome_map']
            have hc0 : cs.get? c = some '0' := by rw [hc]; exact h5.1
            have hdrop : cs.drop c = '0' :: cs.drop (c + 1) := get?_drop_cons hc0
            have hlen : 1 ≤ (parse_number_digits 8 (cs.drop c) 0 0).2 := by
              rw [hdrop]
              exact parse_number_digits_len_pos (by rfl)
            exact ih (c + (parse_number_digits 8 (cs.drop c) 0 0).2) ln ls (by omega)
          · rw [if_neg h5]
            rw [Option.isSome_map']
            have hdrop : cs.drop c = ch :: cs.drop (c + 1) := get?_drop_cons hc
            have hlen : 1 ≤ (parse_number_digits 10 (cs.drop c) 0 0).2 := by
              rw [hdrop]
              exact parse_number_digits_len_pos (charToDigit10_isSome h3)
            exact ih (c + (parse_number_digits 10 (cs.drop c) 0 0).2) ln ls (by omega)
      rw [if_neg h3]
      by_cases h6 : isAsciiAlphaC ch = true
      · rw [if_pos h6]
        rw [Option.isSome_map']
        exact ih (c + (1 + count_ident_chars (cs.drop (c + 1)))) ln ls (by omega)
      rw [if_neg h6]
      by_cases h7 : ch = '/'
      · rw [if_pos h7]
        split
        · -- line comment: the closed-line-comment hypothesis gives a linefeed
          rename_i hsl
          obtain ⟨j, hjlen, hjgt, hjnl⟩ := H c hclen (h7 ▸ hc) hsl
          have hmem : '\n' ∈ cs.drop c := by
            have hj : (cs.drop c).get? (j - c) = some '\n' := by
              rw [List.get?_drop, show c + (j - c) = j by omega]
              exact hjnl
            exact List.get?_mem hj
          have hsome := line_comment_from_isSome hmem c
          cases hl : line_comment cs c with
          | none =>
            rw [line_comment] at hl
            rw [hl] at hsome
            exact absurd hsome (by simp)
          | some jj =>
            obtain ⟨k, hk1, hk2⟩ := line_comment_from_spec (s := cs.drop c) (c := c) (j := jj)
              (by rw [line_comment] at hl; exact hl)
            have hkpos : k ≠ 0 := by
              intro h0
              subst h0
              rw [List.get?_drop, Nat.add_zero] at hk2
              rw [hc] at hk2
              injection hk2 with hk2
              exact absurd (h7 ▸ hk2) (by decide)
            have hk2' : cs.get? jj = some '\n' := by
              rw [List.get?_drop] at hk2
              rw [show c + k = jj by omega] at hk2
              exact hk2
            have hjjlen : jj < cs.length := get?_some_lt hk2'
            exact ih jj ln ls (by omega)
        · -- block comment
          rcases hb : block_comment cs (c + 2) ln ls with ⟨c2, ln2, ls2, ok⟩
          have hgt : c + 2 < c2 := by
            have hg := block_comment_from_gt (cs.drop (c + 2)) (c + 2) ln ls
            rw [block_comment] at hb
            rw [hb] at hg
            exact hg
          dsimp only
          cases ok with
          | true =>
            rw [if_pos rfl]
            exact ih c2 ln2 ls2 (by omega)
          | false =>
            rw [if_neg (by simp)]
            rw [Option.isSome_map']
            exact ih c2 ln2 ls2 (by omega)
        · -- divide token
          rw [Option.isSome_map']
          exact ih (c + 1) ln ls (by omega)
      · rw [if_neg h7]
        split
        · split
          · rw [Option.isSome_map']
            exact ih (c + 2) ln ls (by omega)
          · split
            · rw [Option.isSome_map']
              exact ih (c + 1) ln ls (by omega)
            · rw [Option.isSome_map']
              exact ih (c + 1) ln ls (by omega)
        · split
          · rw [Option.isSome_map']
            exact ih (c + 1) ln ls (by omega)
          · rw [Option.isSome_map']
            exact ih (c + 1) ln ls (by omega)

/-- C9: the scan loop terminates on every input in which each line comment
`//` is followed by a later linefeed (with the fuel one more than the input
length, the run reaches end-of-input: each iteration advances the cursor,
and the line-comment skip stops at the guaranteed linefeed).  Conversely
the skip loop's only exit is a linefeed: on `//a`, which ends inside a line
comment, the model returns `none` at every fuel bound — the Rust loop keeps
testing `chars.get(current) ≠ Some('\n')` forever and `tokenize` does not
terminate. -/
theorem C9_scan_termination :
    (∀ cs : List Char, lineCommentsClosed cs → (scanAll cs).isSome) ∧
    (∀ f : Nat, scan "//a".toList f 0 1 [0] = none) := by
  constructor
  · intro cs H
    exact scan_total cs H (cs.length + 1) 0 1 [0] (by omega)
  · intro f
    cases f with
    | zero => rfl
    | succ f => rfl

/-- Witness for C9 at a concrete input: a source whose line comment is
closed by a linefeed is scanned to completion. -/
theorem C9_scan_termination_witness :
    (scanAll "a //b\n+".toList).isSome :=
  C9_scan_termination.1 "a //b\n+".toList (by unfold lineCommentsClosed; decide)

/-! ## C3 -/

lemma spanConcat_nil (cs : List Char) : spanConcat cs [] = [] := rfl

lemma spanConcat_cons (cs : List Char) (t : Token) (ts : List Token) :
    spanConcat cs (t :: ts) = tokenSpan cs t ++ spanConcat cs ts := by
  simp [spanConcat]

lemma drop_add (cs : List Char) (c k : Nat) : (cs.drop c).drop k = cs.drop (c + k) :=
  List.drop_drop k c cs

lemma strippedM_top_run :
    ∀ (s t : List Char), (∀ ch ∈ s, plainChar ch) →
      strippedM .top (s ++ t) = s ++ strippedM .top t := by
  intro s
  induction s with
  | nil => intro t _; rfl
  | cons ch s' ih =>
    intro t h
    obtain ⟨hsp, htab, hnl, hsl⟩ := h ch (by simp)
    rw [List.cons_append, strippedM]
    rw [if_neg (by tauto), if_neg hsl]
    rw [ih t (fun x hx => h x (by simp [hx]))]
    rfl

lemma strippedM_slash_plain (l : List Char)
    (h1 : l.head? ≠ some '/') (h2 : l.head? ≠ some '*') :
    strippedM .slash l = '/' :: strippedM .top l := by
  cases l with
  | nil => rfl
  | cons ch r =>
    simp only [List.head?_cons, ne_eq, Option.some.injEq] at h1 h2
    conv_lhs => rw [strippedM]
    rw [if_neg h1, if_neg h2]
    by_cases hw : ch = ' ' ∨ ch = '\t' ∨ ch = '\n'
    · rw [if_pos hw]
      conv_rhs => rw [strippedM, if_pos hw]
    · rw [if_neg hw]
      conv_rhs => rw [strippedM, if_neg hw, if_neg h1]

lemma strippedM_blkStar_eq (l : List Char) (h : l.head? ≠ some '/') :
    strippedM .blkStar l = strippedM .blk l := by
  cases l with
  | nil => rfl
  | cons ch r =>
    simp only [List.head?_cons, ne_eq, Option.some.injEq] at h
    conv_lhs => rw [strippedM, if_neg h]
    conv_rhs => rw [strippedM]

lemma line_comment_from_ge {s : List Char} {c j : Nat}
    (h : line_comment_from s c = some j) : c ≤ j := by
  obtain ⟨k, hk, -⟩ := line_comment_from_spec h
  omega

lemma line_skip :
    ∀ (s : List Char) (c j : Nat), line_comment_from s c = some j →
      strippedM .line s = strippedM .top (s.drop (j - c + 1)) := by
  intro s
  induction s with
  | nil => intro c j h; exact absurd h (by simp [line_comment_from])
  | cons ch r ih =>
    intro c j h
    rw [line_comment_from] at h
    by_cases hch : ch = '\n'
    · rw [if_pos hch] at h
      injection h with h
      subst h
      rw [strippedM, if_pos hch]
      simp
    · rw [if_neg hch] at h
      have hge : c + 1 ≤ j := line_comment_from_ge h
      rw [strippedM, if_neg hch, ih (c + 1) j h]
      rw [show j - c + 1 = (j - (c + 1) + 1) + 1 by omega]
      rw [List.drop_succ_cons]

lemma blk_skip :
    ∀ (s : List Char) (c ln : Nat) (ls : List Nat) (r : Nat × Nat × List Nat × Bool),
      block_comment_from s c ln ls = r → r.2.2.2 = true →
      strippedM .blk s = strippedM .top (s.drop (r.1 - c)) := by
  intro s
  induction s with
  | nil =>
    intro c ln ls r h hok
    rw [block_comment_from] at h
    rw [← h] at hok
    exact absurd hok (by simp)
  | cons ch rest ih =>
    intro c ln ls r h hok
    rw [block_comment_from] at h
    by_cases h1 : ch = '*' ∧ rest.head? = some '/'
    · rw [if_pos h1] at h
      rw [← h]
      dsimp only
      obtain ⟨hstar, hhd⟩ := h1
      cases rest with
      | nil => simp at hhd
      | cons ch2 r2 =>
        simp only [List.head?_cons, Option.some.injEq] at hhd
        rw [strippedM, if_pos hstar, hhd, strippedM, if_pos rfl]
        rw [show c + 2 - c = 2 by omega]
        rfl
    · rw [if_neg h1] at h
      have hlift : ∀ (ln0 : Nat) (ls0 : List Nat),
          block_comment_from rest (c + 1) ln0 ls0 = r →
          strippedM .blk rest = strippedM .top (rest.drop (r.1 - (c + 1))) := by
        intro ln0 ls0 hh
        exact ih (c + 1) ln0 ls0 r hh hok
      have hgt : ∀ (ln0 : Nat) (ls0 : List Nat),
          block_comment_from rest (c + 1) ln0 ls0 = r → c + 1 < r.1 := by
        intro ln0 ls0 hh
        have := block_comment_from_gt rest (c + 1) ln0 ls0
        rw [hh] at this
        exact this
      by_cases h2 : ch = '\n'
      · have hb := hlift (ln + 1) (ls ++ [c + 1]) (by rw [← h, if_pos h2])
        have hg := hgt (ln + 1) (ls ++ [c + 1]) (by rw [← h, if_pos h2])
        have hstar : ¬ ch = '*' := by rw [h2]; decide
        rw [strippedM, if_neg hstar, hb]
        rw [show r.1 - c = (r.1 - (c + 1)) + 1 by omega]
        rw [List.drop_succ_cons]
      · have hb := hlift ln ls (by rw [← h, if_neg h2])
        have hg := hgt ln ls (by rw [← h, if_neg h2])
        by_cases hstar : ch = '*'
        · have hhd : rest.head? ≠ some '/' := fun hh => h1 ⟨hstar, hh⟩
          rw [strippedM, if_pos hstar, strippedM_blkStar_eq rest hhd, hb]
          rw [show r.1 - c = (r.1 - (c + 1)) + 1 by omega]
          rw [List.drop_succ_cons]
        · rw [strippedM, if_neg hstar, hb]
          rw [show r.1 - c = (r.1 - (c + 1)) + 1 by omega]
          rw [List.drop_succ_cons]

lemma charToDigit_plain {ch : Char} {base : Nat} (h : (charToDigit ch base).isSome) :
    plainChar ch := by
  refine ⟨?_, ?_, ?_, ?_⟩
  · intro e; subst e
    rw [show charToDigit ' ' base = none from rfl] at h
    exact absurd h (by simp)
  · intro e; subst e
    rw [show charToDigit '\t' base = none from rfl] at h
    exact absurd h (by simp)
  · intro e; subst e
    rw [show charToDigit '\n' base = none from rfl] at h
    exact absurd h (by simp)
  · intro e; subst e
    rw [show charToDigit '/' base = none from rfl] at h
    exact absurd h (by simp)

lemma isIdentChar_plain {ch : Char} (h : isIdentChar ch = true) : plainChar ch := by
  refine ⟨?_, ?_, ?_, ?_⟩ <;> intro e <;> subst e <;> exact absurd h (by decide)

lemma isAsciiAlphaC_plain {ch : Char} (h : isAsciiAlphaC ch = true) : plainChar ch := by
  refine ⟨?_, ?_, ?_, ?_⟩ <;> intro e <;> subst e <;> exact absurd h (by decide)

lemma string_mk_two {a b x y : Char} (h : String.mk [a, b] = String.mk [x, y]) :
    a = x ∧ b = y := by
  injection h with h
  injection h with h1 h2
  injection h2 with h2 _
  exact ⟨h1, h2⟩

lemma doubleSign_chars_plain {a b : Char} {k : TokenType}
    (h : doubleSignTable (String.mk [a, b]) = some k) : plainChar a ∧ plainChar b := by
  unfold doubleSignTable at h
  split_ifs at h with h1 h2 h3 h4 h5 h6
  · obtain ⟨rfl, rfl⟩ := string_mk_two h1; exact ⟨⟨by decide, by decide, by decide, by decide⟩, ⟨by decide, by decide, by decide, by decide⟩⟩
  · obtain ⟨rfl, rfl⟩ := string_mk_two h2; exact ⟨⟨by decide, by decide, by decide, by decide⟩, ⟨by decide, by decide, by decide, by decide⟩⟩
  · obtain ⟨rfl, rfl⟩ := string_mk_two h3; exact ⟨⟨by decide, by decide, by decide, by decide⟩, ⟨by decide, by decide, by decide, by decide⟩⟩
  · obtain ⟨rfl, rfl⟩ := string_mk_two h4; exact ⟨⟨by decide, by decide, by decide, by decide⟩, ⟨by decide, by decide, by decide, by decide⟩⟩
  · obtain ⟨rfl, rfl⟩ := string_mk_two h5; exact ⟨⟨by decide, by decide, by decide, by decide⟩, ⟨by decide, by decide, by decide, by decide⟩⟩
  · obtain ⟨rfl, rfl⟩ := string_mk_two h6; exact ⟨⟨by decide, by decide, by decide, by decide⟩, ⟨by decide, by decide, by decide, by decide⟩⟩

lemma single_sign_plain {ch : Char} {op : TokenType}
    (h : single_sign ch = some op) (hs : ch ≠ '/') : plainChar ch := by
  unfold single_sign at h
  split at h
  all_goals first
    | exact Option.noConfusion h
    | exact absurd rfl hs
    | exact ⟨by decide, by decide, by decide, by decide⟩

lemma parse_number_digits_take (base : Nat) :
    ∀ (s : List Char) (acc : Int) (l0 : Nat),
      ∀ ch ∈ s.take ((parse_number_digits base s acc l0).2 - l0),
        (charToDigit ch base).isSome := by
  intro s
  induction s with
  | nil =>
    intro acc l0 ch hch
    simp [parse_number_digits] at hch
  | cons c0 rest ih =>
    intro acc l0 ch hch
    rw [parse_number_digits] at hch
    cases hd : charToDigit c0 base with
    | none =>
      rw [hd] at hch
      simp at hch
    | some v =>
      rw [hd] at hch
      have hge := parse_number_digits_len_ge base rest
        (wrap32 (acc * (base : Int) + (v : Int))) (l0 + 1)
      rw [show (parse_number_digits base rest
            (wrap32 (acc * (base : Int) + (v : Int))) (l0 + 1)).2 - l0 =
          ((parse_number_digits base rest
            (wrap32 (acc * (base : Int) + (v : Int))) (l0 + 1)).2 - (l0 + 1)) + 1
          by omega] at hch
      rw [List.take_succ_cons] at hch
      rcases List.mem_cons.mp hch with rfl | hm
      · rw [hd]; rfl
      · exact ih _ (l0 + 1) ch hm

lemma count_ident_chars_take :
    ∀ (s : List Char), ∀ ch ∈ s.take (count_ident_chars s), isIdentChar ch = true := by
  intro s
  induction s with
  | nil => simp
  | cons c0 rest ih =>
    intro ch hch
    rw [count_ident_chars] at hch
    by_cases hid : isIdentChar c0 = true
    · rw [if_pos hid, List.take_succ_cons] at hch
      rcases List.mem_cons.mp hch with rfl | hm
      · exact hid
      · exact ih ch hm
    · rw [if_neg hid] at hch
      simp at hch


lemma plain_run_span (cs : List Char) (c len : Nat)
    (hplain : ∀ x ∈ (cs.drop c).take len, plainChar x) :
    (cs.drop c).take len ++ strippedM .top (cs.drop (c + len)) = strippedM .top (cs.drop c) := by
  rw [← drop_add, ← strippedM_top_run _ _ hplain, List.take_append_drop]

section ScanSpans

variable {cs : List Char} {f : Nat}

private lemma scan_spans_cons {c' ln' : Nat} {ls' : List Nat} {toks : List Token}
    (t0 : Token) (c : Nat)
    (hspan : tokenSpan cs t0 ++ strippedM .top (cs.drop c') = strippedM .top (cs.drop c))
    (ih : ∀ (c ln : Nat) (ls : List Nat) (toks : List Token),
      scan cs f c ln ls = some (toks, false) →
      spanConcat cs toks = strippedM .top (cs.drop c))
    (h : (scan cs f c' ln' ls').map (fun r => (t0 :: r.1, r.2)) = some (toks, false)) :
    spanConcat cs toks = strippedM .top (cs.drop c) := by
  cases hs : scan cs f c' ln' ls' with
  | none => rw [hs] at h; exact absurd h (by simp)
  | some r =>
    obtain ⟨ts', p'⟩ := r
    rw [hs] at h
    simp only [Option.map_some', Option.some.injEq, Prod.mk.injEq] at h
    obtain ⟨h1, h2⟩ := h
    subst h2
    rw [← h1, spanConcat_cons, ih c' ln' ls' ts' hs]
    exact hspan

private lemma scan_spans_tail {c' ln' : Nat} {ls' : List Nat} {toks : List Token}
    (h : (scan cs f c' ln' ls').map (fun r => (r.1, true)) = some (toks, false)) :
    False := by
  cases hs : scan cs f c' ln' ls' with
  | none => rw [hs] at h; exact absurd h (by simp)
  | some r => rw [hs] at h; simp at h

end ScanSpans

lemma scan_spans (cs : List Char) (H : noHexPrefixPair cs) :
    ∀ (f c ln : Nat) (ls : List Nat) (toks : List Token),
      scan cs f c ln ls = some (toks, false) →
      spanConcat cs toks = strippedM .top (cs.drop c) := by
  intro f
  induction f with
  | zero =>
    intro c ln ls toks h
    exact absurd h (by simp [scan])
  | succ f ih =>
    intro c ln ls toks h
    rw [scan] at h
    cases hc : cs.get? c with
    | none =>
      rw [hc] at h
      simp only [Option.some.injEq, Prod.mk.injEq] at h
      rw [← h.1, spanConcat_nil]
      rw [List.drop_eq_nil_of_le (List.get?_eq_none.mp hc)]
      rfl
    | some ch =>
      rw [hc] at h
      dsimp only at h
      by_cases h1 : ch = ' ' ∨ ch = '\t'
      · rw [if_pos h1] at h
        rw [ih _ _ _ _ h, get?_drop_cons hc, strippedM, if_pos (h1.imp id Or.inl)]
      rw [if_neg h1] at h
      by_cases h2 : ch = '\n'
      · rw [if_pos h2] at h
        rw [ih _ _ _ _ h, get?_drop_cons hc, strippedM, if_pos (Or.inr (Or.inr h2))]
      rw [if_neg h2] at h
      by_cases h3 : isAsciiDigitC ch = true
      · rw [if_pos h3] at h
        by_cases h4 : some ch = some '0' ∧
            (cs.get? (c + 1) = some 'x' ∨ cs.get? (c + 1) = some 'X')
        · exfalso
          have hc0 : cs.get? c = some '0' := by rw [hc]; exact h4.1
          exact H c (get?_some_lt hc) ⟨hc0, h4.2⟩
        · rw [if_neg h4] at h
          by_cases h5 : some ch = some '0' ∧ (cs.get? (c + 1)).isSome = true
          · rw [if_pos h5] at h
            rcases hp : parse_number_digits 8 (cs.drop c) 0 0 with ⟨sum, len⟩
            rw [hp] at h
            dsimp only at h
            refine scan_spans_cons _ c ?_ ih h
            dsimp only [tokenSpan]
            rw [Nat.add_sub_cancel_left]
            refine plain_run_span cs c len ?_
            intro x hx
            have ht := parse_number_digits_take 8 (cs.drop c) 0 0
            rw [hp] at ht
            exact charToDigit_plain (ht x hx)
          · rw [if_neg h5] at h
            rcases hp : parse_number_digits 10 (cs.drop c) 0 0 with ⟨sum, len⟩
            rw [hp] at h
            dsimp only at h
            refine scan_spans_cons _ c ?_ ih h
            dsimp only [tokenSpan]
            rw [Nat.add_sub_cancel_left]
            refine plain_run_span cs c len ?_
            intro x hx
            have ht := parse_number_digits_take 10 (cs.drop c) 0 0
            rw [hp] at ht
            exact charToDigit_plain (ht x hx)
      rw [if_neg h3] at h
      by_cases h6 : isAsciiAlphaC ch = true
      · rw [if_pos h6] at h
        have hspan : ∀ sort : TokenType,
            tokenSpan cs ⟨sort, ln, c, c + (1 + count_ident_chars (cs.drop (c + 1)))⟩ ++
              strippedM .top (cs.drop (c + (1 + count_ident_chars (cs.drop (c + 1))))) =
              strippedM .top (cs.drop c) := by
          intro sort
          dsimp only [tokenSpan]
          rw [Nat.add_sub_cancel_left]
          refine plain_run_span cs c _ ?_
          intro x hx
          have hd : (cs.drop c).take (1 + count_ident_chars (cs.drop (c + 1))) =
              ch :: (cs.drop (c + 1)).take (count_ident_chars (cs.drop (c + 1))) := by
            rw [get?_drop_cons hc, Nat.add_comm, List.take_succ_cons]
          rw [hd] at hx
          rcases List.mem_cons.mp hx with rfl | hm
          · exact isAsciiAlphaC_plain h6
          · exact isIdentChar_plain (count_ident_chars_take _ x hm)
        cases hk : keywordTable (String.mk (List.take (1 + count_ident_chars
            (List.drop (c + 1) cs)) (List.drop c cs))) with
        | some k =>
          rw [hk] at h
          dsimp only at h
          refine scan_spans_cons _ c ?_ ih h
          exact hspan k
        | none =>
          rw [hk] at h
          dsimp only at h
          refine scan_spans_cons _ c ?_ ih h
          exact hspan _
      rw [if_neg h6] at h
      by_cases h7 : ch = '/'
      · rw [if_pos h7] at h
        subst h7
        split at h
        · -- line comment
          rename_i hsl
          split at h
          · exact absurd h (by simp)
          · rename_i j hl
            rw [ih _ _ _ _ h]
            have hd1 : cs.drop c = '/' :: cs.drop (c + 1) := get?_drop_cons hc
            have hd2 : cs.drop (c + 1) = '/' :: cs.drop (c + 2) := by
              rw [get?_drop_cons hsl]
            have hl2 : line_comment_from (cs.drop (c + 2)) (c + 2) = some j := by
              have hl0 : line_comment_from (cs.drop c) c = some j := hl
              rw [hd1, hd2, line_comment_from, if_neg (by decide),
                line_comment_from, if_neg (by decide)] at hl0
              exact hl0
            have hjge : c + 2 ≤ j := line_comment_from_ge hl2
            obtain ⟨k, hk1, hk2⟩ := line_comment_from_spec hl2
            have hjnl : cs.get? j = some '\n' := by
              rw [List.get?_drop] at hk2
              rw [show c + 2 + k = j by omega] at hk2
              exact hk2
            have hskip := line_skip (cs.drop (c + 2)) (c + 2) j hl2
            rw [drop_add, show c + 2 + (j - (c + 2) + 1) = j + 1 by omega] at hskip
            rw [hd1, hd2, strippedM, if_neg (by decide), if_pos rfl,
              strippedM, if_pos rfl, hskip]
            rw [get?_drop_cons hjnl, strippedM, if_pos (by decide)]
        · -- block comment
          rename_i hbs
          rcases hb : block_comment cs (c + 2) ln ls with ⟨c2, ln2, ls2, ok⟩
          rw [hb] at h
          dsimp only at h
          cases ok with
          | true =>
            rw [if_pos rfl] at h
            rw [ih _ _ _ _ h]
            have hb' : block_comment_from (cs.drop (c + 2)) (c + 2) ln ls =
                (c2, ln2, ls2, true) := hb
            have hskip := blk_skip (cs.drop (c + 2)) (c + 2) ln ls (c2, ln2, ls2, true) hb' rfl
            dsimp only at hskip
            rw [drop_add] at hskip
            have hgt : c + 2 < c2 := by
              have hg := block_comment_from_gt (cs.drop (c + 2)) (c + 2) ln ls
              rw [hb'] at hg
              exact hg
            rw [show c + 2 + (c2 - (c + 2)) = c2 by omega] at hskip
            rw [get?_drop_cons hc, get?_drop_cons hbs]
            rw [strippedM, if_neg (by decide), if_pos rfl]
            rw [strippedM, if_neg (by decide), if_pos rfl]
            rw [hskip]
          | false =>
            rw [if_neg (by simp)] at h
            exact (scan_spans_tail h).elim
        · -- divide token
          rename_i hne1 hne2
          refine scan_spans_cons _ c ?_ ih h
          dsimp only [tokenSpan]
          rw [Nat.add_sub_cancel_left]
          have hh1 : (cs.drop (c + 1)).head? ≠ some '/' := by
            rw [List.head?_drop, ← List.get?_eq_getElem?]
            exact fun he => hne1 he
          have hh2 : (cs.drop (c + 1)).head? ≠ some '*' := by
            rw [List.head?_drop, ← List.get?_eq_getElem?]
            exact fun he => hne2 he
          rw [get?_drop_cons hc, List.take_succ_cons, List.take_zero, List.singleton_append]
          rw [strippedM, if_neg (by decide), if_pos rfl]
          rw [strippedM_slash_plain _ hh1 hh2]
      · rw [if_neg h7] at h
        have hchp : plainChar ch :=
          ⟨fun e => h1 (Or.inl e), fun e => h1 (Or.inr e), h2, h7⟩
        cases hc1 : cs.get? (c + 1) with
        | some b =>
          rw [hc1] at h
          dsimp only at h
          cases hds : doubleSignTable (String.mk [ch, b]) with
          | some sort =>
            rw [hds] at h
            dsimp only at h
            refine scan_spans_cons _ c ?_ ih h
            dsimp only [tokenSpan]
            rw [Nat.add_sub_cancel_left]
            refine plain_run_span cs c 2 ?_
            intro x hx
            have hd : (cs.drop c).take 2 = [ch, b] := by
              rw [get?_drop_cons hc, get?_drop_cons hc1]
              rfl
            rw [hd] at hx
            simp only [List.mem_cons, List.not_mem_nil, or_false] at hx
            rcases hx with rfl | rfl
            · exact hchp
            · exact (doubleSign_chars_plain hds).2
          | none =>
            rw [hds] at h
            dsimp only at h
            cases hss : single_sign ch with
            | some op =>
              rw [hss] at h
              dsimp only at h
              refine scan_spans_cons _ c ?_ ih h
              dsimp only [tokenSpan]
              rw [Nat.add_sub_cancel_left]
              refine plain_run_span cs c 1 ?_
              intro x hx
              have hd : (cs.drop c).take 1 = [ch] := by
                rw [get?_drop_cons hc]
                rfl
              rw [hd] at hx
              simp only [List.mem_cons, List.not_mem_nil, or_false] at hx
              subst hx
              exact hchp
            | none =>
              rw [hss] at h
              dsimp only at h
              exact (scan_spans_tail h).elim
        | none =>
          rw [hc1] at h
          dsimp only at h
          cases hss : single_sign ch with
          | some op =>
            rw [hss] at h
            dsimp only at h
            refine scan_spans_cons _ c ?_ ih h
            dsimp only [tokenSpan]
            rw [Nat.add_sub_cancel_left]
            refine plain_run_span cs c 1 ?_
            intro x hx
            have hd : (cs.drop c).take 1 = [ch] := by
              rw [get?_drop_cons hc]
              rfl
            rw [hd] at hx
            simp only [List.mem_cons, List.not_mem_nil, or_false] at hx
            subst hx
            exact hchp
          | none =>
            rw [hss] at h
            dsimp only at h
            exact (scan_spans_tail h).elim


/-- C3 counterexample (the claim as written): on `0x1A` the lexer succeeds
and produces one numeric token, but the token's recorded span starts after
the `0x` prefix (`Lexer::number` passes `current + 2` as the token start),
so the concatenated spans give `1A` while the non-whitespace, non-comment
content of the source is `0x1A`: the round-trip fails. -/
theorem C3_roundtrip_counterexample :
    tokenize "0x1A" = some [⟨.IntNumber 26, 1, 2, 4⟩] ∧
    spanConcat "0x1A".toList [⟨.IntNumber 26, 1, 2, 4⟩] = ['1', 'A'] ∧
    stripped "0x1A".toList = ['0', 'x', '1', 'A'] ∧
    spanConcat "0x1A".toList [⟨.IntNumber 26, 1, 2, 4⟩] ≠ stripped "0x1A".toList :=
  ⟨by decide, by decide, by decide, by decide⟩

/-- C3 (amended): for every source text holding no hexadecimal prefix pair
`0x`/`0X`, if the scan succeeds with the panic flag clear then concatenating
each produced token's source-span substring in output order reproduces
exactly the non-whitespace, non-comment content of the source in its
original order.  The restriction is needed: a hexadecimal token's recorded
span starts two characters past the token (after the `0x` prefix), so on
hexadecimal literals the prefix characters are lost from the
concatenation. -/
theorem C3_span_roundtrip (cs : List Char) (toks : List Token)
    (hhex : noHexPrefixPair cs) (h : scanAll cs = some (toks, false)) :
    spanConcat cs toks = stripped cs := by
  have hs := scan_spans cs hhex (cs.length + 1) 0 1 [0] toks h
  rw [List.drop_zero] at hs
  exact hs

/-- Witness for C3 at a concrete input: on `a+b //c` (linefeed-terminated,
no hexadecimal prefix) the three token spans `a`, `+`, `b` concatenate to
exactly the stripped source content. -/
theorem C3_span_roundtrip_witness :
    noHexPrefixPair "a+b //c\n".toList ∧
    scanAll "a+b //c\n".toList =
      some ([⟨.Identifier "a", 1, 0, 1⟩, ⟨.Plus, 1, 1, 2⟩, ⟨.Identifier "b", 1, 2, 3⟩],
        false) ∧
    spanConcat "a+b //c\n".toList
      [⟨.Identifier "a", 1, 0, 1⟩, ⟨.Plus, 1, 1, 2⟩, ⟨.Identifier "b", 1, 2, 3⟩] =
      stripped "a+b //c\n".toList :=
  ⟨by unfold noHexPrefixPair; decide, by decide,
   C3_span_roundtrip "a+b //c\n".toList
     [⟨.Identifier "a", 1, 0, 1⟩, ⟨.Plus, 1, 1, 2⟩, ⟨.Identifier "b", 1, 2, 3⟩]
     (by unfold noHexPrefixPair; decide) (by decide)⟩

end Sysy
